import Mathlib

/-!
# Chameleon content script: orchestration layer

A shallow embedding of `src/content_script.js`.

The content script runs in the extension's isolated world (source line 3); the
code it injects (the template literal of lines 43-170) runs in the page.  The
two worlds have separate global objects and share the document and the events
dispatched on `window`, which is why the source exchanges the profile through
events (lines 198-208).  The model keeps the globals of the two worlds in
separate fields.

Interceptor modules, the seed manager and the spoofing engine are black boxes:
a call of one of their functions either throws or returns, as an oracle of the
position of the call in the run decides.
-/

namespace Chameleon

/-! ## JavaScript strings -/

/-- JavaScript `s.split(sep)` for a separator of one character. -/
def jsSplit (sep : Char) : List Char → List (List Char)
  | [] => [[]]
  | c :: cs =>
    if c = sep then [] :: jsSplit sep cs
    else
      match jsSplit sep cs with
      | [] => [[c]]
      | l :: ls => (c :: l) :: ls

/-- JavaScript `lines.join(sep)` for a separator of one character. -/
def jsJoin (sep : Char) : List (List Char) → List Char
  | [] => []
  | [l] => l
  | l :: l2 :: ls => l ++ sep :: jsJoin sep (l2 :: ls)

/-- JavaScript `s.startsWith(p)`. -/
def jsStartsWith (s p : List Char) : Bool :=
  p.isPrefixOf s

/-- JavaScript `s.includes(p)`. -/
def jsIncludes (s p : List Char) : Bool :=
  match s with
  | [] => p.isEmpty
  | c :: cs => p.isPrefixOf (c :: cs) || jsIncludes cs p

/-- JavaScript `s.replace(pat, rep)` for a string pattern and a replacement
without `$`: the first occurrence of `pat` is replaced. -/
def jsReplace (pat rep : List Char) : List Char → List Char
  | [] => if pat.isEmpty then rep else []
  | c :: cs =>
    if pat.isPrefixOf (c :: cs) then rep ++ (c :: cs).drop pat.length
    else c :: jsReplace pat rep cs

/-- JavaScript `xs.pop()` on a fresh array: its last element. -/
def jsPop (xs : List (List Char)) : List Char :=
  xs.getLastD []

/-! ## Values -/

/-- A profile: a value handed out by the spoofing engine.  The orchestration
reads only `archetype` (lines 81, 112). -/
structure Profile where
  archetype : String
  seed : Nat
  deriving DecidableEq, Repr

/-- How a call of a collaborator's function ends. -/
inductive Completion where
  /-- it throws; for `SpoofingEngine.init()`, the one call whose result is
  awaited (line 80), also: the promise it returns rejects.  A promise returned
  by a call that is not awaited is a returned value. -/
  | throws
  /-- it returns `undefined` or `null` -/
  | nullish
  /-- it returns the object `p` -/
  | value (p : Profile)
  deriving DecidableEq, Repr

/-- A truthy value stored in a property of the page's `window`.  `init` and
`regenerateProfile` are its function-valued properties of those names, if any:
given the number of events of the run so far and the argument, they tell how
the call ends. -/
structure ModuleObj where
  init : Option (Nat → Option Profile → Completion)
  regenerateProfile : Option (Nat → Completion)

/-- The page's global object, as a map from property names; `none` stands for
an absent or falsy property. -/
abbrev Window := String → Option ModuleObj

/-- Assignment `window[name] = v`. -/
def Window.set (w : Window) (name : String) (v : ModuleObj) : Window :=
  fun n => if n = name then some v else w n

/-- An element of the `interceptors` array (lines 84-93). -/
structure Interceptor where
  name : String
  module : Option ModuleObj

/-- Lines of the console written by the source. -/
inductive Console where
  | initializing
  | failedToLoadModules
  | seedManagerNotLoaded
  | spoofingEngineNotLoaded
  | profileGenerated (archetype : String)
  | interceptorInitialized (name : String)
  | interceptorFailed (name : String)
  | interceptorNotAvailable (name : String)
  | profileRegenerated (archetype : String)
  | reinitializationFailed (name : String)
  | allInitialized
  | initializationFailed
  deriving DecidableEq, Repr

/-- Answers given through `sendResponse`. -/
inductive Response where
  /-- `{ profile: event.detail }` -/
  | profile (detail : Option Profile)
  /-- `{ success: true }` -/
  | success
  /-- `{ initialized: b }` -/
  | initialized (b : Bool)
  deriving DecidableEq, Repr

/-- What a run does, in order. -/
inductive Event where
  /-- the script element is appended to the document root and removed -/
  | inject
  /-- `console.log`, `console.warn` or `console.error` -/
  | console (line : Console)
  /-- `window.MetaInterceptor.init()` was called; `threw` tells how it ended -/
  | metaInit (threw : Bool)
  /-- the awaited `window.SpoofingEngine.init()` completed -/
  | engineInit (c : Completion)
  /-- `window.SpoofingEngine.regenerateProfile()` was called and completed -/
  | regenerate (c : Completion)
  /-- `module.init(profile)` of the interceptor `name` was called -/
  | init (name : String) (profile : Profile) (threw : Bool)
  /-- `window.addEventListener(type, ...)` -/
  | listen (type : String)
  /-- `window.dispatchEvent(new CustomEvent(type, ...))` by the source -/
  | dispatch (type : String) (detail : Option Profile)
  /-- `sendResponse(r)` for the request numbered `request` -/
  | respond (request : Nat) (r : Response)
  deriving DecidableEq, Repr

/-! ## The module list (lines 20-34, 49) -/

/-- The `modules` array of `loadModules`. -/
def modules : List String :=
  [ "seedManager.js",
    "spoofingEngine.js",
    "utils/randomUtils.js",
    "utils/jitterUtils.js",
    "interceptors/metaInterceptor.js",
    "interceptors/navigatorInterceptor.js",
    "interceptors/screenInterceptor.js",
    "interceptors/canvasInterceptor.js",
    "interceptors/webglInterceptor.js",
    "interceptors/audioInterceptor.js",
    "interceptors/fontsInterceptor.js",
    "interceptors/pluginsInterceptor.js",
    "interceptors/timezoneInterceptor.js" ]

/-- The global name of a module: `m.split('/').pop().replace('.js', '')`. -/
def moduleName (m : String) : String :=
  String.mk (jsReplace ".js".toList [] (jsPop (jsSplit '/' m.toList)))

/-- The `moduleNames` array of the injected code (line 49). -/
def moduleNames : List String :=
  modules.map moduleName

/-- The properties of `window` under which `initializeChameleon` reads the
modules (lines 63-64, 68, 74, 80 and 85-92). -/
def pipelineNames : List String :=
  [ "MetaInterceptor",
    "SeedManager",
    "SpoofingEngine",
    "NavigatorInterceptor",
    "ScreenInterceptor",
    "CanvasInterceptor",
    "WebGLInterceptor",
    "AudioInterceptor",
    "FontsInterceptor",
    "PluginsInterceptor",
    "TimezoneInterceptor" ]

/-! ## The interceptor passes (lines 84-107 and 115-123) -/

/-- The `interceptors` array literal of `initializeChameleon`. -/
def interceptors (w : Window) : List Interceptor :=
  [ { name := "Navigator", module := w "NavigatorInterceptor" },
    { name := "Screen", module := w "ScreenInterceptor" },
    { name := "Canvas", module := w "CanvasInterceptor" },
    { name := "WebGL", module := w "WebGLInterceptor" },
    { name := "Audio", module := w "AudioInterceptor" },
    { name := "Fonts", module := w "FontsInterceptor" },
    { name := "Plugins", module := w "PluginsInterceptor" },
    { name := "Timezone", module := w "TimezoneInterceptor" } ]

/-- The test `module && typeof module.init === 'function'`, giving the function. -/
def Interceptor.initFn (i : Interceptor) : Option (Nat → Option Profile → Completion) :=
  match i.module with
  | none => none
  | some m => m.init

/-- An interceptor is available when the test of lines 97 and 116 passes. -/
def Interceptor.available (i : Interceptor) : Bool :=
  i.initFn.isSome

/-- The body of the loop of lines 96-107 for one interceptor, `clock` events
having happened: the events it adds. -/
def attemptInit (profile : Profile) (i : Interceptor) (clock : Nat) : List Event :=
  match i.initFn with
  | some f =>
    match f clock (some profile) with
    | .throws => [.init i.name profile true, .console (.interceptorFailed i.name)]
    | _ => [.init i.name profile false, .console (.interceptorInitialized i.name)]
  | none => [.console (.interceptorNotAvailable i.name)]

/-- The loop of lines 96-107 over the remaining interceptors, extending the
events `t` of the run so far. -/
def initializeEach (profile : Profile) : List Interceptor → List Event → List Event
  | [], t => t
  | i :: rest, t => initializeEach profile rest (t ++ attemptInit profile i t.length)

/-- The body of the loop of lines 115-123 for one interceptor. -/
def attemptReinit (newProfile : Profile) (i : Interceptor) (clock : Nat) : List Event :=
  match i.initFn with
  | some f =>
    match f clock (some newProfile) with
    | .throws => [.init i.name newProfile true, .console (.reinitializationFailed i.name)]
    | _ => [.init i.name newProfile false]
  | none => []

/-- The loop of lines 115-123 of the `chameleon-regenerate` listener. -/
def reinitializeEach (newProfile : Profile) : List Interceptor → List Event → List Event
  | [], t => t
  | i :: rest, t => reinitializeEach newProfile rest (t ++ attemptReinit newProfile i t.length)

/-! ## The run of the two scripts -/

/-- Where the injected script stands. -/
inductive Phase where
  /-- the script element has not been appended yet -/
  | notInjected
  /-- the `Promise.all` of line 45 is pending -/
  | loading
  /-- `initializeChameleon` is suspended at the `await` of line 80, which will
  complete with `c` -/
  | awaiting (c : Completion)
  /-- nothing of the boot remains to run -/
  | settled
  deriving DecidableEq, Repr

/-- What the run depends on and the source does not decide. -/
structure Env where
  /-- whether `document.documentElement` exists when the content script runs -/
  rootAtStart : Bool
  /-- the properties of the page's `window` when the callback of `Promise.all`
  runs, before the assignments of lines 50-52 -/
  globals : Window
  /-- the value `mod.default || mod` of the import of each locator; `none` when
  the import rejects -/
  imported : String → Option ModuleObj

/-- The state of a page: the content script's world, the document, the page's
world and the events so far. -/
structure State where
  /-- `window.__chameleon_injected` of the content script's world -/
  injectedFlag : Bool
  /-- `window.__chameleon_initialized` of the content script's world, which the
  `getStatus` handler reads (line 216); no line of the content script assigns it -/
  isolatedInitialized : Option Bool
  /-- listeners added to `chrome.runtime.onMessage` -/
  messageListeners : Nat
  /-- requests whose `once` listener for `chameleon-profile-data` is waiting -/
  pending : List Nat
  /-- number of messages received -/
  nextRequest : Nat
  /-- mutation observers of line 183 not yet disconnected -/
  observers : Nat
  /-- `document.documentElement` exists -/
  hasRoot : Bool
  /-- where the injected script stands -/
  phase : Phase
  /-- the globals of the page's world that `initializeChameleon` and the
  regeneration listener read: those of the page once the callback of
  `Promise.all` has made its assignments (nothing reads them before) -/
  window : Window
  /-- `window.__chameleon_initialized` of the page's world -/
  initialized : Option Bool
  /-- the `interceptors` arrays captured by the listeners of
  `chameleon-regenerate` -/
  regenerateListeners : List (List Interceptor)
  /-- `protectAPIs()` has run -/
  guardsInstalled : Bool
  /-- the events so far -/
  trace : List Event

/-- The state before the content script runs. -/
def State.initial (env : Env) : State :=
  { injectedFlag := false
    isolatedInitialized := none
    messageListeners := 0
    pending := []
    nextRequest := 0
    observers := 0
    hasRoot := env.rootAtStart
    phase := .notInjected
    window := fun _ => none
    initialized := none
    regenerateListeners := []
    guardsInstalled := false
    trace := [] }

/-- The results of `Promise.all` over the imports of the given locators: `none`
when one of them rejects. -/
def promiseAll (imported : String → Option ModuleObj) : List String → Option (List ModuleObj)
  | [] => some []
  | l :: ls =>
    match imported l, promiseAll imported ls with
    | some m, some ms => some (m :: ms)
    | _, _ => none

/-- The loop `modules.forEach((mod, i) => window[moduleNames[i]] = ...)`. -/
def assignModules (w : Window) : List String → List ModuleObj → Window
  | n :: ns, m :: ms => assignModules (w.set n m) ns ms
  | _, _ => w

/-- The `catch` of lines 136-139. -/
def catchBlock (s : State) : State :=
  { s with
    trace := s.trace ++ [.console .initializationFailed]
    initialized := some false
    phase := .settled }

/-- Lines 67-80 of `initializeChameleon`: the checks of the required modules and
the call of `SpoofingEngine.init()`, at which the function is suspended.  When
`init` is not a function the call is a `TypeError`, caught in the same turn. -/
def afterMeta (s : State) : State :=
  match s.window "SeedManager" with
  | none => { s with trace := s.trace ++ [.console .seedManagerNotLoaded], phase := .settled }
  | some _ =>
    match s.window "SpoofingEngine" with
    | none =>
      { s with trace := s.trace ++ [.console .spoofingEngineNotLoaded], phase := .settled }
    | some engine =>
      match engine.init with
      | none => catchBlock s
      | some f => { s with phase := .awaiting (f s.trace.length none) }

/-- The start of `initializeChameleon` (lines 60-80), up to its suspension. -/
def initializeChameleon (s : State) : State :=
  match s.window "MetaInterceptor" with
  | none => afterMeta s
  | some m =>
    match m.init with
    | none => catchBlock s
    | some f =>
      match f s.trace.length none with
      | .throws => catchBlock { s with trace := s.trace ++ [.metaInit true] }
      | _ => afterMeta { s with trace := s.trace ++ [.metaInit false] }

/-- The rest of `initializeChameleon` (lines 80-139), once the awaited call has
completed with `c`. -/
def resume (s : State) (c : Completion) : State :=
  let s := { s with trace := s.trace ++ [.engineInit c] }
  match c with
  | .throws => catchBlock s
  | .nullish => catchBlock s
  | .value profile =>
    let ints := interceptors s.window
    let t := initializeEach profile ints
      (s.trace ++ [.console (.profileGenerated profile.archetype)])
    { s with
      trace := t ++ [.listen "chameleon-regenerate", .console .allInitialized,
        .dispatch "chameleon-ready" (some profile)]
      regenerateListeners := s.regenerateListeners ++ [ints]
      initialized := some true
      phase := .settled }

/-- The listener of `chameleon-regenerate` (lines 110-124) with its captured
`interceptors`; an exception ends it (it is an `async` function). -/
def onRegenerate (w : Window) (ints : List Interceptor) (t : List Event) : List Event :=
  match w "SpoofingEngine" with
  | none => t
  | some engine =>
    match engine.regenerateProfile with
    | none => t
    | some g =>
      match g t.length with
      | .throws => t ++ [.regenerate .throws]
      | .nullish => t ++ [.regenerate .nullish]
      | .value newProfile =>
        reinitializeEach newProfile ints
          (t ++ [.regenerate (.value newProfile),
            .console (.profileRegenerated newProfile.archetype)])

/-- An event of the given type fires on `window`: the listeners that the source
has added for it run, in both worlds. -/
def deliver (s : State) (type : String) (detail : Option Profile) : State :=
  if type = "chameleon-regenerate" then
    { s with
      trace := s.regenerateListeners.foldl (fun t ints => onRegenerate s.window ints t) s.trace }
  else if type = "chameleon-profile-data" then
    { s with
      trace := s.trace ++ s.pending.map (fun r => Event.respond r (.profile detail))
      pending := [] }
  else s

/-- The listener of `chrome.runtime.onMessage` (lines 198-219) for the request
numbered `r`. -/
def onMessage (r : Nat) (action : String) (s : State) : State :=
  if action = "getProfile" then
    let s := deliver { s with trace := s.trace ++ [.dispatch "chameleon-get-profile" none] }
      "chameleon-get-profile" none
    { s with trace := s.trace ++ [.listen "chameleon-profile-data"], pending := s.pending ++ [r] }
  else if action = "regenerateProfile" then
    let s := deliver { s with trace := s.trace ++ [.dispatch "chameleon-regenerate" none] }
      "chameleon-regenerate" none
    { s with trace := s.trace ++ [.respond r .success] }
  else if action = "getStatus" then
    { s with trace := s.trace ++ [.respond r (.initialized (s.isolatedInitialized.getD false))] }
  else s

/-- The script element is appended and removed (lines 179-180, 185-186): the
injected code starts, calls `protectAPIs()` and waits for its imports. -/
def injectScript (s : State) : State :=
  { s with trace := s.trace ++ [.inject], phase := .loading, guardsInstalled := true }

/-- The end of `loadModules` (lines 178-191). -/
def loadModules (s : State) : State :=
  if s.hasRoot then injectScript s else { s with observers := s.observers + 1 }

/-- The content script (lines 7-221). -/
def contentScript (s : State) : State :=
  if s.injectedFlag then s
  else
    let s := { s with injectedFlag := true, trace := s.trace ++ [.console .initializing] }
    let s := loadModules s
    { s with messageListeners := s.messageListeners + 1 }

/-- The callback of a mutation observer of line 183, the root being there. -/
def observerCallback (s : State) : State :=
  injectScript { s with observers := s.observers - 1 }

/-- The `then` and `catch` callbacks of `Promise.all` (lines 47-58). -/
def importsSettle (env : Env) (s : State) : State :=
  match promiseAll env.imported modules with
  | some mods => initializeChameleon { s with window := assignModules env.globals moduleNames mods }
  | none => { s with trace := s.trace ++ [.console .failedToLoadModules], phase := .settled }

/-- What happens to a page. -/
inductive Input where
  /-- the content script is run -/
  | contentScript
  /-- the document gets its root element -/
  | rootCreated
  /-- the `Promise.all` of the injected code settles -/
  | importsSettle
  /-- the awaited `SpoofingEngine.init()` settles -/
  | engineSettles
  /-- a message `{ action }` arrives from the popup or the background -/
  | message (action : String)
  /-- some other script dispatches an event on `window` -/
  | windowEvent (type : String) (detail : Option Profile)
  deriving DecidableEq, Repr

/-- One step of the page. -/
def step (env : Env) (s : State) : Input → State
  | .contentScript => contentScript s
  | .rootCreated =>
    if s.hasRoot then s else observerCallback^[s.observers] { s with hasRoot := true }
  | .importsSettle =>
    match s.phase with
    | .loading => importsSettle env s
    | _ => s
  | .engineSettles =>
    match s.phase with
    | .awaiting c => resume s c
    | _ => s
  | .message action =>
    (onMessage s.nextRequest action)^[s.messageListeners] { s with nextRequest := s.nextRequest + 1 }
  | .windowEvent type detail => deliver s type detail

/-- The state after the inputs `ins`, from the start. -/
def run (env : Env) (ins : List Input) : State :=
  ins.foldl (step env) (State.initial env)

/-! ## The guards of `protectAPIs` (lines 143-167) -/

/-- The marker that starts the names of the properties the system adds. -/
def marker : List Char :=
  "__chameleon".toList

/-- The replacement of `Object.getOwnPropertyNames` (lines 146-150).  `original`
is the function replaced: it gives the names of the own properties of an
object, or throws (`none`). -/
def wrappedGetOwnPropertyNames {α : Type} (original : α → Option (List (List Char)))
    (obj : α) : Option (List (List Char)) :=
  match original obj with
  | none => none
  | some props => some (props.filter fun prop => !jsStartsWith prop marker)

/-- The text looked for in the lines of a stack (line 161). -/
def needle : List Char :=
  "chameleon".toList

/-- The `construct` trap of the proxy of `Error` (lines 155-165), as a function
of the `stack` of the error that the original constructor built (`none` when
it has none): the `stack` of the error handed back. -/
def cleanStack (stack : Option (List Char)) : Option (List Char) :=
  match stack with
  | none => none
  | some st =>
    if st.isEmpty then some st
    else some (jsJoin '\n' ((jsSplit '\n' st).filter fun line => !jsIncludes line needle))

/-- The property names of a sample object. -/
def sampleNames : List (List Char) :=
  ["location".toList, "__chameleon_initialized".toList, "name".toList,
    "__chameleon_injected".toList]

/-- The address `chrome.runtime.getURL(path)` (lines 38 and 46) of a file of an
extension served from `origin`. -/
def getURL (origin path : List Char) : List Char :=
  origin ++ path

/-- What the specification calls a line "referencing the system's own injected
code", as a second definition to set against the test of line 161: the line
has in it the address of one of the injected modules,
`chrome.runtime.getURL(m)` for `m` in `modules`. -/
def referencesInjectedCode (origin line : List Char) : Bool :=
  modules.any fun m => jsIncludes line (getURL origin m.toList)

/-- The origin of a sample extension. -/
def extensionOrigin : List Char :=
  "chrome-extension://abcdefghijklmnopabcdefghijklmnop/".toList

/-- The stack of `new Error('x')` with a frame in the injected module
`interceptors/canvasInterceptor.js` and a frame in a script of the page. -/
def frameStack : List Char :=
  "Error: x\n    at init (".toList
    ++ getURL extensionOrigin "interceptors/canvasInterceptor.js".toList
    ++ ":10:5)\n    at g (https://example.com/app.js:2:2)".toList

/-- The stack of `new Error('chameleon is a lizard')` built by a script of the
page: none of its lines is of the injected code. -/
def lizardStack : List Char :=
  "Error: chameleon is a lizard\n    at g (https://example.com/app.js:2:2)".toList

/-! ## Sample pages -/

/-- The profile that the sample engine hands out at boot. -/
def profileA : Profile :=
  { archetype := "desktop", seed := 1 }

/-- The profile that the sample engine hands out on regeneration. -/
def profileB : Profile :=
  { archetype := "mobile", seed := 2 }

/-- A module whose `init` returns. -/
def quietModule : ModuleObj :=
  { init := some fun _ _ => .nullish, regenerateProfile := none }

/-- A module whose `init` throws. -/
def throwingModule : ModuleObj :=
  { init := some fun _ _ => .throws, regenerateProfile := none }

/-- A spoofing engine. -/
def engineModule : ModuleObj :=
  { init := some fun _ _ => .value profileA, regenerateProfile := some fun _ => .value profileB }

/-- Page globals: the engine, the Navigator interceptor (which throws) and the
Screen and Canvas interceptors; the meta interceptor and the seed manager as
asked. -/
def sampleGlobals (withMeta withSeed : Bool) : Window := fun n =>
  if n = "MetaInterceptor" then (if withMeta then some quietModule else none)
  else if n = "SeedManager" then (if withSeed then some quietModule else none)
  else if n = "SpoofingEngine" then some engineModule
  else if n = "NavigatorInterceptor" then some throwingModule
  else if n = "ScreenInterceptor" then some quietModule
  else if n = "CanvasInterceptor" then some quietModule
  else none

/-- A page on which every import resolves and every global is there. -/
def fullPage : Env :=
  { rootAtStart := true, globals := sampleGlobals true true, imported := fun _ => some quietModule }

/-- A page on which `window.MetaInterceptor` is absent. -/
def pageWithoutMeta : Env :=
  { rootAtStart := true, globals := sampleGlobals false true,
    imported := fun _ => some quietModule }

/-- A page on which `window.SeedManager` is absent. -/
def pageWithoutSeedManager : Env :=
  { rootAtStart := true, globals := sampleGlobals true false,
    imported := fun _ => some quietModule }

/-- A page on which every import resolves to a module with `init` and
`regenerateProfile`, and on which nothing but the loader defines a global. -/
def loaderOnlyPage : Env :=
  { rootAtStart := true, globals := fun _ => none, imported := fun _ => some engineModule }

/-- A page whose document has no root element yet when the content script
runs. -/
def pageWithoutRoot : Env :=
  { rootAtStart := false, globals := sampleGlobals true true,
    imported := fun _ => some quietModule }

/-- The inputs of a boot: the content script, the imports, the engine. -/
def bootInputs : List Input :=
  [.contentScript, .importsSettle, .engineSettles]

/-! ## Observations on the events -/

/-- The interceptor `init` calls among the events, in order: whose `init` and
with which profile. -/
def initCalls : List Event → List (String × Profile)
  | [] => []
  | .init name profile _ :: t => (name, profile) :: initCalls t
  | _ :: t => initCalls t

/-- The interceptors attempted among the events, in order: those whose `init`
was called and those reported as not available. -/
def attempted : List Event → List String
  | [] => []
  | .init name _ _ :: t => name :: attempted t
  | .console (.interceptorNotAvailable name) :: t => name :: attempted t
  | _ :: t => attempted t

/-- The payloads of the `chameleon-ready` events dispatched, in order. -/
def readyEvents : List Event → List (Option Profile)
  | [] => []
  | .dispatch type detail :: t =>
    if type = "chameleon-ready" then detail :: readyEvents t else readyEvents t
  | _ :: t => readyEvents t

/-- The profiles with which the awaited `SpoofingEngine.init()` completed. -/
def engineValues : List Event → List Profile
  | [] => []
  | .engineInit (.value p) :: t => p :: engineValues t
  | _ :: t => engineValues t

/-- No interceptor `init` is called before a call of the meta interceptor's
`init` has returned. -/
def metaFirst : List Event → Bool
  | [] => true
  | .metaInit false :: _ => true
  | .init _ _ _ :: _ => false
  | _ :: t => metaFirst t

/-- The events that the passes and the regeneration listener add. -/
def Event.isPass : Event → Bool
  | .init _ _ _ => true
  | .console _ => true
  | .regenerate _ => true
  | _ => false

/-- The events that bring a profile to the content script or answer a
`getProfile` request: a dispatch of `chameleon-profile-data` and a
`sendResponse({ profile })`. -/
def Event.isProfileAnswer : Event → Bool
  | .dispatch type _ => decide (type = "chameleon-profile-data")
  | .respond _ (.profile _) => true
  | _ => false

/-- None of the events brings a profile to the content script or answers a
`getProfile` request. -/
def unanswered (t : List Event) : Bool :=
  t.all fun x => !x.isProfileAnswer

/-- The page's globals after the assignments of lines 50-52; `none` when some
module fails to load. -/
def loadedWindow (env : Env) : Option Window :=
  (promiseAll env.imported modules).map (assignModules env.globals moduleNames)

/-- The display names of the interceptors, in the order of the array of lines
84-93. -/
def declaredOrder : List String :=
  ["Navigator", "Screen", "Canvas", "WebGL", "Audio", "Fonts", "Plugins", "Timezone"]

/-- The boot has completed with the profile `p`: the flag of the page is set,
`chameleon-ready` was dispatched once, with `p`, after a pass that attempted the
eight interceptors, and the regeneration listener is in place. -/
def Booted (s : State) (p : Profile) : Prop :=
  engineValues s.trace = [p] ∧ s.initialized = some true
    ∧ readyEvents s.trace = [some p]
    ∧ s.regenerateListeners = [interceptors s.window]
    ∧ s.phase = .settled
    ∧ ∃ pre pass post, s.trace = pre ++ pass ++ Event.dispatch "chameleon-ready" (some p) :: post
        ∧ attempted pass = declaredOrder

/-- What holds of every state of a run. -/
structure Inv (env : Env) (s : State) : Prop where
  isolated : s.isolatedInitialized = none
  status : ∀ r b, Event.respond r (.initialized b) ∈ s.trace → b = false
  once : s.injectedFlag = false → s.phase = .notInjected ∧ s.observers = 0
  observer : s.observers ≠ 0 → s.observers = 1 ∧ s.phase = .notInjected ∧ s.hasRoot = false
  early : s.phase = .notInjected ∨ s.phase = .loading →
    (∀ b, Event.metaInit b ∉ s.trace) ∧ (∀ c, Event.engineInit c ∉ s.trace)
  loaded : s.phase ≠ .notInjected → s.phase ≠ .loading →
    ∀ w, loadedWindow env = some w → s.window = w
  rejected : loadedWindow env = none →
    (∀ b, Event.metaInit b ∉ s.trace) ∧ (∀ c, s.phase ≠ .awaiting c) ∧ engineValues s.trace = []
  unsettled : s.phase ≠ .settled → engineValues s.trace = [] ∧ s.initialized = none
  failed : engineValues s.trace = [] →
    initCalls s.trace = [] ∧ readyEvents s.trace = [] ∧ s.regenerateListeners = []
      ∧ s.initialized ≠ some true
  succeeded : ∀ p ∈ engineValues s.trace, Booted s p
  required : (∃ c, s.phase = .awaiting c) ∨ engineValues s.trace ≠ [] →
    s.window "SeedManager" ≠ none ∧ s.window "SpoofingEngine" ≠ none
      ∧ (s.window "MetaInterceptor" ≠ none → Event.metaInit false ∈ s.trace)
  metaOrder : s.window "MetaInterceptor" ≠ none → metaFirst s.trace = true
  metaCalled : ∀ m f, s.window "MetaInterceptor" = some m → m.init = some f →
    ∃ b, Event.metaInit b ∈ s.trace

/-- The number of times the script element was appended to the document. -/
def injections : List Event → Nat
  | [] => 0
  | .inject :: t => injections t + 1
  | _ :: t => injections t

/-- The bookkeeping of the content script: before its first run nothing has
happened; after it there is one message listener and, according as the document
has its root, one injection or one observer waiting to make it. -/
structure Once (s : State) : Prop where
  before : s.injectedFlag = false →
    injections s.trace = 0 ∧ s.observers = 0 ∧ s.messageListeners = 0
  listener : s.injectedFlag = true → s.messageListeners = 1
  rooted : s.injectedFlag = true → s.hasRoot = true →
    injections s.trace = 1 ∧ s.observers = 0
  waiting : s.injectedFlag = true → s.hasRoot = false →
    injections s.trace = 0 ∧ s.observers = 1

/-- The state `s2` has the flag, the observers, the root and the message
listeners of `s1`, and as many injections. -/
def SameInjection (s1 s2 : State) : Prop :=
  s2.injectedFlag = s1.injectedFlag ∧ s2.observers = s1.observers ∧ s2.hasRoot = s1.hasRoot
    ∧ s2.messageListeners = s1.messageListeners
    ∧ injections s2.trace = injections s1.trace

/-- The events that `t2` has after the events `t1` it extends. -/
def since (t1 t2 : List Event) : List Event :=
  t2.drop t1.length

/-! ## Lemmas on the passes -/

theorem initCalls_append (a b : List Event) :
    initCalls (a ++ b) = initCalls a ++ initCalls b := by
  induction a with
  | nil => rfl
  | cons e a ih => cases e <;> simp [initCalls, ih]

theorem initCalls_attemptInit (profile : Profile) (i : Interceptor) (clock : Nat) :
    initCalls (attemptInit profile i clock)
      = if i.available then [(i.name, profile)] else [] := by
  unfold attemptInit Interceptor.available
  cases h : i.initFn with
  | none => simp [initCalls]
  | some f => cases hf : f clock (some profile) <;> simp [initCalls, hf]

theorem initCalls_initializeEach (profile : Profile) (l : List Interceptor) :
    ∀ t : List Event, initCalls (initializeEach profile l t)
      = initCalls t ++ (l.filter (·.available)).map (fun i => (i.name, profile)) := by
  induction l with
  | nil => intro t; simp [initializeEach]
  | cons i rest ih =>
    intro t
    rw [initializeEach, ih, initCalls_append, initCalls_attemptInit]
    cases h : i.available <;> simp [List.filter, h]

theorem initializeEach_extends (profile : Profile) (l : List Interceptor) :
    ∀ t : List Event, ∃ e, initializeEach profile l t = t ++ e := by
  induction l with
  | nil => intro t; exact ⟨[], by simp [initializeEach]⟩
  | cons i rest ih =>
    intro t
    obtain ⟨e, he⟩ := ih (t ++ attemptInit profile i t.length)
    exact ⟨attemptInit profile i t.length ++ e, by rw [initializeEach, he, List.append_assoc]⟩

theorem since_append (t e : List Event) : since t (t ++ e) = e := by
  simp [since]

theorem since_initializeEach_cons (profile : Profile) (i : Interceptor)
    (rest : List Interceptor) (t : List Event) :
    since t (initializeEach profile (i :: rest) t)
      = attemptInit profile i t.length
        ++ since (t ++ attemptInit profile i t.length)
            (initializeEach profile rest (t ++ attemptInit profile i t.length)) := by
  obtain ⟨e, he⟩ := initializeEach_extends profile rest (t ++ attemptInit profile i t.length)
  rw [initializeEach, he, since_append, List.append_assoc, since_append]

/-! ## Lemmas on the observations -/

theorem readyEvents_append (a b : List Event) :
    readyEvents (a ++ b) = readyEvents a ++ readyEvents b := by
  induction a with
  | nil => rfl
  | cons e a ih =>
    cases e <;> simp [readyEvents, ih]
    split <;> simp

theorem engineValues_append (a b : List Event) :
    engineValues (a ++ b) = engineValues a ++ engineValues b := by
  induction a with
  | nil => rfl
  | cons e a ih =>
    cases e with
    | engineInit c => cases c <;> simp [engineValues, ih]
    | _ => simp [engineValues, ih]

theorem attempted_append (a b : List Event) :
    attempted (a ++ b) = attempted a ++ attempted b := by
  induction a with
  | nil => rfl
  | cons e a ih =>
    cases e with
    | console c => cases c <;> simp [attempted, ih]
    | _ => simp [attempted, ih]

theorem metaFirst_append_of_returned {a : List Event} (b : List Event)
    (h : metaFirst a = true) (hm : Event.metaInit false ∈ a) : metaFirst (a ++ b) = true := by
  induction a with
  | nil => simp at hm
  | cons e a ih =>
    cases e with
    | metaInit r =>
      cases r
      · simp [metaFirst]
      · simp only [List.mem_cons, reduceCtorEq, false_or, Event.metaInit.injEq,
          Bool.false_eq_true] at hm
        simpa [metaFirst] using ih (by simpa [metaFirst] using h) hm
    | init n p r => simp [metaFirst] at h
    | _ =>
      simp only [List.mem_cons, reduceCtorEq, false_or] at hm
      simpa [metaFirst] using ih (by simpa [metaFirst] using h) hm

theorem metaFirst_of_initCalls_nil {a : List Event} (h : initCalls a = []) :
    metaFirst a = true := by
  induction a with
  | nil => rfl
  | cons e a ih =>
    cases e with
    | metaInit r => cases r <;> simp [metaFirst]; exact ih (by simpa [initCalls] using h)
    | init n p r => simp [initCalls] at h
    | _ => simpa [metaFirst] using ih (by simpa [initCalls] using h)

theorem metaFirst_append_of_initCalls_nil {a b : List Event}
    (h : metaFirst a = true) (hb : initCalls b = []) : metaFirst (a ++ b) = true := by
  induction a with
  | nil => simpa using metaFirst_of_initCalls_nil hb
  | cons e a ih =>
    cases e with
    | metaInit r =>
      cases r
      · simp [metaFirst]
      · simpa [metaFirst] using ih (by simpa [metaFirst] using h)
    | init n p r => simp [metaFirst] at h
    | _ => simpa [metaFirst] using ih (by simpa [metaFirst] using h)

/-- What `metaFirst` says: an interceptor `init` in the events has a returned
call of the meta interceptor's `init` before it. -/
theorem metaFirst_spec {t : List Event} (h : metaFirst t = true) :
    ∀ (pre post : List Event) (n : String) (p : Profile) (b : Bool),
      t = pre ++ Event.init n p b :: post → Event.metaInit false ∈ pre := by
  induction t with
  | nil => intro pre post n p b ht; simp at ht
  | cons e t ih =>
    intro pre post n p b ht
    cases pre with
    | nil =>
      simp only [List.nil_append, List.cons.injEq] at ht
      rw [ht.1] at h
      simp [metaFirst] at h
    | cons x pre =>
      simp only [List.cons_append, List.cons.injEq] at ht
      obtain ⟨rfl, ht⟩ := ht
      by_cases hx : e = Event.metaInit false
      · simp [hx]
      · have h2 : metaFirst t = true := by
          cases e with
          | metaInit r => cases r <;> simp_all [metaFirst]
          | init n p r => simp [metaFirst] at h
          | _ => simpa [metaFirst] using h
        exact List.mem_cons_of_mem _ (ih h2 pre post n p b ht)

theorem isPass_readyEvents {e : List Event} (h : ∀ x ∈ e, x.isPass = true) :
    readyEvents e = [] := by
  induction e with
  | nil => rfl
  | cons x e ih =>
    have hx := h x (List.mem_cons_self _ _)
    have he := ih (fun y hy => h y (List.mem_cons_of_mem _ hy))
    cases x <;> simp_all [readyEvents, Event.isPass]

theorem isPass_engineValues {e : List Event} (h : ∀ x ∈ e, x.isPass = true) :
    engineValues e = [] := by
  induction e with
  | nil => rfl
  | cons x e ih =>
    have hx := h x (List.mem_cons_self _ _)
    have he := ih (fun y hy => h y (List.mem_cons_of_mem _ hy))
    cases x <;> simp_all [engineValues, Event.isPass]

theorem isPass_not_metaInit {e : List Event} (h : ∀ x ∈ e, x.isPass = true) (b : Bool) :
    Event.metaInit b ∉ e :=
  fun hm => by simpa [Event.isPass] using h _ hm

theorem isPass_not_engineInit {e : List Event} (h : ∀ x ∈ e, x.isPass = true)
    (c : Completion) : Event.engineInit c ∉ e :=
  fun hm => by simpa [Event.isPass] using h _ hm

theorem isPass_not_respond {e : List Event} (h : ∀ x ∈ e, x.isPass = true) (r : Nat)
    (x : Response) : Event.respond r x ∉ e :=
  fun hm => by simpa [Event.isPass] using h _ hm

theorem isPass_attemptInit (profile : Profile) (i : Interceptor) (clock : Nat) :
    ∀ x ∈ attemptInit profile i clock, x.isPass = true := by
  unfold attemptInit
  cases hi : i.initFn with
  | none => simp [Event.isPass]
  | some f => cases hf : f clock (some profile) <;> simp [hf, Event.isPass]

theorem isPass_attemptReinit (profile : Profile) (i : Interceptor) (clock : Nat) :
    ∀ x ∈ attemptReinit profile i clock, x.isPass = true := by
  unfold attemptReinit
  cases hi : i.initFn with
  | none => simp
  | some f => cases hf : f clock (some profile) <;> simp [hf, Event.isPass]

theorem initializeEach_isPass (profile : Profile) (l : List Interceptor) :
    ∀ t : List Event, ∃ e, initializeEach profile l t = t ++ e ∧ ∀ x ∈ e, x.isPass = true := by
  induction l with
  | nil => intro t; exact ⟨[], by simp [initializeEach]⟩
  | cons i rest ih =>
    intro t
    obtain ⟨e, he, hp⟩ := ih (t ++ attemptInit profile i t.length)
    refine ⟨attemptInit profile i t.length ++ e, by rw [initializeEach, he, List.append_assoc], ?_⟩
    intro x hx
    rcases List.mem_append.mp hx with h | h
    · exact isPass_attemptInit profile i t.length x h
    · exact hp x h

theorem reinitializeEach_isPass (profile : Profile) (l : List Interceptor) :
    ∀ t : List Event,
      ∃ e, reinitializeEach profile l t = t ++ e ∧ ∀ x ∈ e, x.isPass = true := by
  induction l with
  | nil => intro t; exact ⟨[], by simp [reinitializeEach]⟩
  | cons i rest ih =>
    intro t
    obtain ⟨e, he, hp⟩ := ih (t ++ attemptReinit profile i t.length)
    refine ⟨attemptReinit profile i t.length ++ e,
      by rw [reinitializeEach, he, List.append_assoc], ?_⟩
    intro x hx
    rcases List.mem_append.mp hx with h | h
    · exact isPass_attemptReinit profile i t.length x h
    · exact hp x h

theorem onRegenerate_isPass (w : Window) (ints : List Interceptor) (t : List Event) :
    ∃ e, onRegenerate w ints t = t ++ e ∧ ∀ x ∈ e, x.isPass = true := by
  unfold onRegenerate
  cases hw : w "SpoofingEngine" with
  | none => exact ⟨[], by simp⟩
  | some engine =>
    cases hg : engine.regenerateProfile with
    | none => exact ⟨[], by simp [hg]⟩
    | some g =>
      cases hc : g t.length with
      | throws => exact ⟨[.regenerate .throws], by simp [hg, hc, Event.isPass]⟩
      | nullish => exact ⟨[.regenerate .nullish], by simp [hg, hc, Event.isPass]⟩
      | value q =>
        obtain ⟨e, he, hp⟩ := reinitializeEach_isPass q ints
          (t ++ [.regenerate (.value q), .console (.profileRegenerated q.archetype)])
        refine ⟨[.regenerate (.value q), .console (.profileRegenerated q.archetype)] ++ e,
          by simp [hg, hc, he], ?_⟩
        intro x hx
        rcases List.mem_append.mp hx with h | h
        · simp at h; rcases h with h | h <;> simp [h, Event.isPass]
        · exact hp x h

theorem foldl_onRegenerate_isPass (w : Window) (ls : List (List Interceptor)) :
    ∀ t : List Event, ∃ e, ls.foldl (fun t ints => onRegenerate w ints t) t = t ++ e
      ∧ ∀ x ∈ e, x.isPass = true := by
  induction ls with
  | nil => intro t; exact ⟨[], by simp⟩
  | cons ints ls ih =>
    intro t
    obtain ⟨e1, he1, hp1⟩ := onRegenerate_isPass w ints t
    obtain ⟨e2, he2, hp2⟩ := ih (onRegenerate w ints t)
    refine ⟨e1 ++ e2, by rw [List.foldl_cons, he2, he1, List.append_assoc], ?_⟩
    intro x hx
    rcases List.mem_append.mp hx with h | h
    · exact hp1 x h
    · exact hp2 x h

theorem moduleNames_eq : moduleNames = ["seedManager", "spoofingEngine", "randomUtils",
    "jitterUtils", "metaInterceptor", "navigatorInterceptor", "screenInterceptor",
    "canvasInterceptor", "webglInterceptor", "audioInterceptor", "fontsInterceptor",
    "pluginsInterceptor", "timezoneInterceptor"] := by decide

theorem interceptors_names (w : Window) :
    (interceptors w).map (·.name)
      = ["Navigator", "Screen", "Canvas", "WebGL", "Audio", "Fonts", "Plugins", "Timezone"] :=
  rfl

theorem interceptors_names_nodup (w : Window) : ((interceptors w).map (·.name)).Nodup := by
  rw [interceptors_names]; decide

theorem resume_value_trace (s : State) (profile : Profile) :
    (resume s (.value profile)).trace
      = initializeEach profile (interceptors s.window)
          (s.trace ++ [.engineInit (.value profile),
            .console (.profileGenerated profile.archetype)])
        ++ [.listen "chameleon-regenerate", .console .allInitialized,
          .dispatch "chameleon-ready" (some profile)] := by
  simp [resume, List.append_assoc]

/-- The events of the completion of the boot, the engine having returned
`profile`: the two of line 80-81, those of the pass, the three of lines 110-134. -/
theorem since_resume_value (s : State) (profile : Profile) :
    since s.trace (resume s (.value profile)).trace
      = [.engineInit (.value profile), .console (.profileGenerated profile.archetype)]
        ++ since (s.trace ++ [.engineInit (.value profile),
              .console (.profileGenerated profile.archetype)])
            (initializeEach profile (interceptors s.window)
              (s.trace ++ [.engineInit (.value profile),
                .console (.profileGenerated profile.archetype)]))
        ++ [.listen "chameleon-regenerate", .console .allInitialized,
          .dispatch "chameleon-ready" (some profile)] := by
  rw [resume_value_trace]
  obtain ⟨e, he⟩ := initializeEach_extends profile (interceptors s.window)
    (s.trace ++ [.engineInit (.value profile), .console (.profileGenerated profile.archetype)])
  rw [he, since_append]
  simp [since, List.append_assoc]

theorem initCalls_since_initializeEach (profile : Profile) (l : List Interceptor)
    (t : List Event) :
    initCalls (since t (initializeEach profile l t))
      = (l.filter (·.available)).map (fun i => (i.name, profile)) := by
  have h := initCalls_initializeEach profile l t
  obtain ⟨e, he⟩ := initializeEach_extends profile l t
  rw [he, initCalls_append] at h
  rw [he, since_append]
  exact List.append_cancel_left h

theorem mem_attemptInit_name {profile q : Profile} {i : Interceptor} {clock : Nat}
    {n : String} {b : Bool} (h : Event.init n q b ∈ attemptInit profile i clock) :
    n = i.name := by
  unfold attemptInit at h
  cases hi : i.initFn with
  | none => simp [hi] at h
  | some f =>
    cases hf : f clock (some profile) <;> simp [hi, hf] at h <;> exact h.1

theorem mem_since_initializeEach_name (profile : Profile) (l : List Interceptor) :
    ∀ (t : List Event) (n : String) (q : Profile) (b : Bool),
      Event.init n q b ∈ since t (initializeEach profile l t) → n ∈ l.map (·.name) := by
  induction l with
  | nil => intro t n q b h; simp [initializeEach, since] at h
  | cons i rest ih =>
    intro t n q b h
    rw [since_initializeEach_cons, List.mem_append] at h
    rcases h with h | h
    · simp [mem_attemptInit_name h]
    · simp [ih _ n q b h]

theorem attemptInit_available (profile : Profile) (i : Interceptor) (clock : Nat)
    (h : i.available = true) :
    ∃ b, Event.init i.name profile b ∈ attemptInit profile i clock := by
  unfold attemptInit
  unfold Interceptor.available at h
  cases hi : i.initFn with
  | none => simp [hi] at h
  | some f =>
    cases hf : f clock (some profile)
    · exact ⟨true, by simp [hf]⟩
    · exact ⟨false, by simp [hf]⟩
    · exact ⟨false, by simp [hf]⟩

theorem available_called (profile : Profile) (l : List Interceptor) :
    ∀ (t : List Event) (i : Interceptor), i ∈ l → i.available = true →
      ∃ b, Event.init i.name profile b ∈ since t (initializeEach profile l t) := by
  induction l with
  | nil => intro t i hi; simp at hi
  | cons a rest ih =>
    intro t i hi hav
    rw [since_initializeEach_cons]
    rcases List.mem_cons.mp hi with h | h
    · subst h
      obtain ⟨b, hb⟩ := attemptInit_available profile i t.length hav
      exact ⟨b, List.mem_append_left _ hb⟩
    · obtain ⟨b, hb⟩ := ih (t ++ attemptInit profile a t.length) i h hav
      exact ⟨b, List.mem_append_right _ hb⟩

/-- In a pass over interceptors of distinct names, an interceptor whose `init`
threw is followed by the `init` of every available later one. -/
theorem pass_continues_after_throw (profile : Profile) (l : List Interceptor) :
    ∀ (t : List Event) (k j : Nat) (ik ij : Interceptor),
      (l.map (·.name)).Nodup → l[k]? = some ik → l[j]? = some ij → k < j →
      Event.init ik.name profile true ∈ since t (initializeEach profile l t) →
      ij.available = true →
      ∃ b, List.Sublist [Event.init ik.name profile true, Event.init ij.name profile b]
        (since t (initializeEach profile l t)) := by
  induction l with
  | nil => intro t k j ik ij _ hk; simp at hk
  | cons a rest ih =>
    intro t k j ik ij hnd hk hj hkj hthrow hav
    rw [since_initializeEach_cons] at hthrow ⊢
    simp only [List.map_cons, List.nodup_cons] at hnd
    obtain ⟨j, rfl⟩ : ∃ j0, j = j0 + 1 := ⟨j - 1, by omega⟩
    simp only [List.getElem?_cons_succ] at hj
    have hjmem : ij ∈ rest := List.getElem?_mem hj
    cases k with
    | zero =>
      simp only [List.getElem?_cons_zero, Option.some.injEq] at hk
      subst hk
      obtain ⟨b, hb⟩ := available_called profile rest (t ++ attemptInit profile a t.length)
        ij hjmem hav
      refine ⟨b, ?_⟩
      rcases List.mem_append.mp hthrow with h | h
      · have h1 : List.Sublist [Event.init a.name profile true]
            (attemptInit profile a t.length) := List.singleton_sublist.mpr h
        have h2 := List.singleton_sublist.mpr hb
        exact h1.append h2
      · exact absurd (mem_since_initializeEach_name profile rest _ _ _ _ h) hnd.1
    | succ k =>
      simp only [List.getElem?_cons_succ] at hk
      have hkmem : ik ∈ rest := List.getElem?_mem hk
      rcases List.mem_append.mp hthrow with h | h
      · have hn := mem_attemptInit_name h
        exact absurd (hn ▸ List.mem_map_of_mem (·.name) hkmem) hnd.1
      · obtain ⟨b, hb⟩ := ih (t ++ attemptInit profile a t.length) k j ik ij hnd.2 hk hj
          (by omega) h hav
        exact ⟨b, hb.trans (List.sublist_append_right _ _)⟩

/-! ## The invariant of the runs -/

theorem Booted.persists {s : State} {p : Profile} (h : Booted s p) (e : List Event)
    (hready : readyEvents e = []) (hvalues : engineValues e = []) (ml nr : Nat)
    (pd : List Nat) :
    Booted
      { s with
        trace := s.trace ++ e, messageListeners := ml, nextRequest := nr, pending := pd }
      p := by
  obtain ⟨h1, h2, h3, h4, h5, pre, pass, post, h6, h7⟩ := h
  refine ⟨by simp [engineValues_append, h1, hvalues], h2,
    by simp [readyEvents_append, h3, hready], h4, h5, pre, pass, post ++ e, ?_, h7⟩
  simp [h6]

/-- Events that call no `init` of the meta interceptor or of the engine,
dispatch no `chameleon-ready`, and call interceptors only after a completed
boot, keep the invariant. -/
theorem Inv.extend {env : Env} {s : State} (h : Inv env s) (e : List Event)
    (hready : readyEvents e = []) (hvalues : engineValues e = [])
    (hmeta : ∀ b, Event.metaInit b ∉ e) (hengine : ∀ c, Event.engineInit c ∉ e)
    (hstatus : ∀ r b, Event.respond r (.initialized b) ∈ e → b = false)
    (hinit : initCalls e = [] ∨ engineValues s.trace ≠ []) (ml nr : Nat) (pd : List Nat) :
    Inv env
      { s with
        trace := s.trace ++ e, messageListeners := ml, nextRequest := nr, pending := pd } where
  isolated := h.isolated
  status := by
    intro r b hm
    rcases List.mem_append.mp hm with hm | hm
    · exact h.status r b hm
    · exact hstatus r b hm
  once := h.once
  observer := h.observer
  early := by
    intro hp
    obtain ⟨h1, h2⟩ := h.early hp
    exact ⟨fun b hm => (List.mem_append.mp hm).elim (h1 b) (hmeta b),
      fun c hm => (List.mem_append.mp hm).elim (h2 c) (hengine c)⟩
  loaded := h.loaded
  rejected := by
    intro hl
    obtain ⟨h1, h2, h3⟩ := h.rejected hl
    exact ⟨fun b hm => (List.mem_append.mp hm).elim (h1 b) (hmeta b), h2,
      by simp [engineValues_append, h3, hvalues]⟩
  unsettled := by
    intro hp
    obtain ⟨h1, h2⟩ := h.unsettled hp
    exact ⟨by simp [engineValues_append, h1, hvalues], h2⟩
  failed := by
    intro hv
    have hv0 : engineValues s.trace = [] := by
      simpa [engineValues_append, hvalues] using hv
    obtain ⟨h1, h2, h3, h4⟩ := h.failed hv0
    rcases hinit with hi | hi
    · exact ⟨by simp [initCalls_append, h1, hi], by simp [readyEvents_append, h2, hready],
        h3, h4⟩
    · exact absurd hv0 hi
  succeeded := by
    intro p hp
    have hp0 : p ∈ engineValues s.trace := by
      simpa [engineValues_append, hvalues] using hp
    exact (h.succeeded p hp0).persists e hready hvalues ml nr pd
  required := by
    intro hp
    have hp0 : (∃ c, s.phase = .awaiting c) ∨ engineValues s.trace ≠ [] := by
      simpa [engineValues_append, hvalues] using hp
    obtain ⟨h1, h2, h3⟩ := h.required hp0
    exact ⟨h1, h2, fun hm => List.mem_append_left _ (h3 hm)⟩
  metaOrder := by
    intro hm
    have h0 := h.metaOrder hm
    rcases hinit with hi | hi
    · exact metaFirst_append_of_initCalls_nil h0 hi
    · exact metaFirst_append_of_returned e h0 ((h.required (Or.inr hi)).2.2 hm)
  metaCalled := by
    intro m f hm hf
    obtain ⟨b, hb⟩ := h.metaCalled m f hm hf
    exact ⟨b, List.mem_append_left _ hb⟩

theorem inv_initial (env : Env) : Inv env (State.initial env) where
  isolated := rfl
  status := by intro r b hm; simp [State.initial] at hm
  once := fun _ => ⟨rfl, rfl⟩
  observer := fun hn => absurd rfl hn
  early := fun _ => ⟨by simp [State.initial], by simp [State.initial]⟩
  loaded := fun hn => absurd rfl hn
  rejected := fun _ => ⟨by simp [State.initial], by simp [State.initial], rfl⟩
  unsettled := fun _ => ⟨rfl, rfl⟩
  failed := fun _ => ⟨rfl, rfl, rfl, by simp [State.initial]⟩
  succeeded := by intro p hp; simp [State.initial, engineValues] at hp
  required := by
    intro hp
    simp [State.initial, engineValues] at hp
  metaOrder := fun _ => rfl
  metaCalled := by intro m f hm; simp [State.initial] at hm

/-- Before the injection, the content script's flag, the observers, the root
and the phase may change as the content script and its observer change them. -/
theorem Inv.reposition {env : Env} {s : State} (h : Inv env s) (hp : s.phase = .notInjected)
    (o : Nat) (r g : Bool) (ph : Phase) (hph : ph = .notInjected ∨ ph = .loading)
    (hobs : o ≠ 0 → o = 1 ∧ ph = .notInjected ∧ r = false) :
    Inv env
      { s with injectedFlag := true, observers := o, hasRoot := r, phase := ph,
               guardsInstalled := g } where
  isolated := h.isolated
  status := h.status
  once := by intro hf; simp at hf
  observer := hobs
  early := fun _ => h.early (Or.inl hp)
  loaded := by
    intro h1 h2
    rcases hph with hph | hph <;> simp_all
  rejected := by
    intro hl
    obtain ⟨h1, _, h3⟩ := h.rejected hl
    refine ⟨h1, ?_, h3⟩
    intro c hc
    rcases hph with hph | hph <;> simp_all
  unsettled := fun _ => h.unsettled (by simp [hp])
  failed := h.failed
  succeeded := by
    intro p hm
    have h0 := (h.unsettled (by simp [hp])).1
    simp_all
  required := by
    intro hr
    have h0 := (h.unsettled (by simp [hp])).1
    rcases hr with ⟨c, hc⟩ | hr
    · rcases hph with hph | hph <;> simp_all
    · exact absurd h0 hr
  metaOrder := h.metaOrder
  metaCalled := h.metaCalled

theorem inv_contentScript {env : Env} {s : State} (h : Inv env s) :
    Inv env (contentScript s) := by
  unfold contentScript
  by_cases hf : s.injectedFlag = true
  · simp [hf, h]
  · simp only [hf, Bool.false_eq_true, ↓reduceIte]
    have hf0 : s.injectedFlag = false := by simpa using hf
    obtain ⟨hp, ho⟩ := h.once hf0
    have h1 := h.extend [.console .initializing] rfl rfl (by simp) (by simp) (by simp)
      (Or.inl rfl) (s.messageListeners + 1) s.nextRequest s.pending
    unfold loadModules injectScript
    by_cases hr : s.hasRoot = true
    · have h2 := h1.extend [.inject] rfl rfl (by simp) (by simp) (by simp)
        (Or.inl rfl) (s.messageListeners + 1) s.nextRequest s.pending
      have h3 := h2.reposition hp 0 true true .loading (Or.inr rfl) (by simp)
      simpa [hr, ho] using h3
    · have hr0 : s.hasRoot = false := by simpa using hr
      have h3 := h1.reposition hp 1 false s.guardsInstalled .notInjected (Or.inl rfl)
        (by simp)
      simpa [hr0, ho, hp] using h3

theorem inv_rootCreated {env : Env} {s : State} (h : Inv env s) :
    Inv env (step env s .rootCreated) := by
  unfold step
  by_cases hr : s.hasRoot = true
  · simp [hr, h]
  · have hr0 : s.hasRoot = false := by simpa using hr
    simp only [hr0, Bool.false_eq_true, ↓reduceIte]
    by_cases ho : s.observers = 0
    · have h3 : Inv env { s with hasRoot := true } :=
        { isolated := h.isolated, status := h.status, once := h.once,
          observer := fun hn => absurd ho hn, early := h.early, loaded := h.loaded,
          rejected := h.rejected, unsettled := h.unsettled, failed := h.failed,
          succeeded := h.succeeded, required := h.required, metaOrder := h.metaOrder,
          metaCalled := h.metaCalled }
      simpa [ho] using h3
    · obtain ⟨h1, hp, _⟩ := h.observer ho
      have h2 := h.extend [.inject] rfl rfl (by simp) (by simp) (by simp)
        (Or.inl rfl) s.messageListeners s.nextRequest s.pending
      have h3 := h2.reposition hp 0 true true .loading (Or.inr rfl) (by simp)
      have hf : s.injectedFlag = true := by
        by_contra hf
        exact ho (h.once (by simpa using hf)).2
      simpa [h1, observerCallback, injectScript, hf] using h3

theorem metaConsole_observations {e : List Event}
    (he : ∀ x ∈ e, (∃ b, x = Event.metaInit b) ∨ ∃ c, x = Event.console c) :
    initCalls e = [] ∧ readyEvents e = [] ∧ engineValues e = []
      ∧ (∀ r x, Event.respond r x ∉ e) := by
  induction e with
  | nil => simp [initCalls, readyEvents, engineValues]
  | cons y e ih =>
    obtain ⟨h1, h2, h3, h4⟩ := ih (fun x hx => he x (List.mem_cons_of_mem _ hx))
    rcases he y (List.mem_cons_self _ _) with ⟨b, rfl⟩ | ⟨c, rfl⟩
    · exact ⟨by simpa [initCalls] using h1, by simpa [readyEvents] using h2,
        by simpa [engineValues] using h3, by simpa using h4⟩
    · exact ⟨by simpa [initCalls] using h1, by simpa [readyEvents] using h2,
        by simpa [engineValues] using h3, by simpa using h4⟩

/-- The effect of the callback of `Promise.all` on the invariant, for the events
`e` that the start of `initializeChameleon` adds. -/
theorem Inv.load {env : Env} {s : State} (h : Inv env s) (hp : s.phase = .loading)
    (W : Window) (hW : loadedWindow env = some W) (e : List Event)
    (he : ∀ x ∈ e, (∃ b, x = Event.metaInit b) ∨ ∃ c, x = Event.console c)
    (ph : Phase) (ini : Option Bool)
    (hini : ini = none ∨ (ini = some false ∧ ph = .settled))
    (hph : ph = .settled ∨ ∃ c, ph = .awaiting c ∧ W "SeedManager" ≠ none
      ∧ W "SpoofingEngine" ≠ none
      ∧ (W "MetaInterceptor" ≠ none → Event.metaInit false ∈ e))
    (hcalled : ∀ m f, W "MetaInterceptor" = some m → m.init = some f →
      ∃ b, Event.metaInit b ∈ e) :
    Inv env { s with window := W, trace := s.trace ++ e, phase := ph, initialized := ini } := by
  obtain ⟨e1, e2, e3, e4⟩ := metaConsole_observations he
  obtain ⟨u1, u2⟩ := h.unsettled (by simp [hp])
  obtain ⟨f1, f2, f3, f4⟩ := h.failed u1
  have hv : engineValues (s.trace ++ e) = [] := by simp [engineValues_append, u1, e3]
  have hi : initCalls (s.trace ++ e) = [] := by simp [initCalls_append, f1, e1]
  exact
    { isolated := h.isolated
      status := by
        intro r b hm
        rcases List.mem_append.mp hm with hm | hm
        · exact h.status r b hm
        · exact absurd hm (e4 r _)
      once := by
        intro hf
        have := (h.once hf).1
        simp [hp] at this
      observer := by
        intro hn
        have := (h.observer hn).2.1
        simp [hp] at this
      early := by
        intro hq
        rcases hph with hph | ⟨c, hph, _⟩ <;> simp [hph] at hq
      loaded := by
        intro _ _ w hw
        rw [hW] at hw
        exact Option.some.inj hw
      rejected := by
        intro hl
        rw [hW] at hl
        simp at hl
      unsettled := by
        intro hq
        refine ⟨hv, ?_⟩
        rcases hini with hini | ⟨_, hini⟩
        · exact hini
        · exact absurd hini hq
      failed := by
        intro _
        refine ⟨hi, by simp [readyEvents_append, f2, e2], f3, ?_⟩
        rcases hini with hini | ⟨hini, _⟩ <;> simp [hini]
      succeeded := by
        intro p hm
        rw [hv] at hm
        simp at hm
      required := by
        intro hr
        rcases hr with ⟨c, hc⟩ | hr
        · rcases hph with hph | ⟨c2, hph, h1, h2, h3⟩
          · simp [hph] at hc
          · exact ⟨h1, h2, fun hm => List.mem_append_right _ (h3 hm)⟩
        · exact absurd hv hr
      metaOrder := fun _ => metaFirst_of_initCalls_nil hi
      metaCalled := by
        intro m f hm hf
        obtain ⟨b, hb⟩ := hcalled m f hm hf
        exact ⟨b, List.mem_append_right _ hb⟩ }

theorem inv_importsSettle {env : Env} {s : State} (h : Inv env s) (hp : s.phase = .loading) :
    Inv env (importsSettle env s) := by
  unfold importsSettle
  cases hl : promiseAll env.imported modules with
  | none =>
    have hW : loadedWindow env = none := by simp [loadedWindow, hl]
    obtain ⟨u1, u2⟩ := h.unsettled (by simp [hp])
    obtain ⟨f1, f2, f3, f4⟩ := h.failed u1
    obtain ⟨a1, a2⟩ := h.early (Or.inr hp)
    exact
      { isolated := h.isolated
        status := by
          intro r b hm
          rcases List.mem_append.mp hm with hm | hm
          · exact h.status r b hm
          · simp at hm
        once := by
          intro hf
          have := (h.once hf).1
          simp [hp] at this
        observer := by
          intro hn
          have := (h.observer hn).2.1
          simp [hp] at this
        early := by intro hq; simp at hq
        loaded := by
          intro _ _ w hw
          rw [hW] at hw
          simp at hw
        rejected := by
          intro _
          refine ⟨?_, by simp, by simp [engineValues_append, u1, engineValues]⟩
          intro b hm
          rcases List.mem_append.mp hm with hm | hm
          · exact a1 b hm
          · simp at hm
        unsettled := by intro hq; simp at hq
        failed := by
          intro _
          exact ⟨by simp [initCalls_append, f1, initCalls],
            by simp [readyEvents_append, f2, readyEvents], f3, by simp [u2]⟩
        succeeded := by
          intro p hm
          simp [engineValues_append, u1, engineValues] at hm
        required := by
          intro hr
          simp [engineValues_append, u1, engineValues] at hr
        metaOrder := fun _ => metaFirst_of_initCalls_nil
          (by simp [initCalls_append, f1, initCalls])
        metaCalled := by
          intro m f hm hf
          obtain ⟨b, hb⟩ := h.metaCalled m f hm hf
          exact ⟨b, List.mem_append_left _ hb⟩ }
  | some mods =>
    have hW : loadedWindow env = some (assignModules env.globals moduleNames mods) := by
      simp [loadedWindow, hl]
    obtain ⟨u1, u2⟩ := h.unsettled (by simp [hp])
    simp only
    unfold initializeChameleon
    cases hm : assignModules env.globals moduleNames mods "MetaInterceptor" with
    | none =>
      simp only [hm]
      unfold afterMeta
      cases hs : assignModules env.globals moduleNames mods "SeedManager" with
      | none =>
        simpa [hs, u2] using h.load hp _ hW [.console .seedManagerNotLoaded] (by simp)
          .settled none (Or.inl rfl) (Or.inl rfl) (by simp [hm])
      | some sm =>
        cases hg : assignModules env.globals moduleNames mods "SpoofingEngine" with
        | none =>
          simpa [hs, hg, u2] using h.load hp _ hW [.console .spoofingEngineNotLoaded]
            (by simp) .settled none (Or.inl rfl) (Or.inl rfl) (by simp [hm])
        | some engine =>
          cases he : engine.init with
          | none =>
            simpa [hs, hg, he, catchBlock] using h.load hp _ hW
              [.console .initializationFailed] (by simp) .settled (some false)
              (Or.inr ⟨rfl, rfl⟩) (Or.inl rfl) (by simp [hm])
          | some fe =>
            simpa [hs, hg, he, u2] using h.load hp _ hW [] (by simp)
              (.awaiting (fe s.trace.length none)) none (Or.inl rfl)
              (Or.inr ⟨_, rfl, by simp [hs], by simp [hg], by simp [hm]⟩) (by simp [hm])
    | some m =>
      simp only [hm]
      cases hi : m.init with
      | none =>
        simpa [catchBlock] using h.load hp _ hW [.console .initializationFailed] (by simp)
          .settled (some false) (Or.inr ⟨rfl, rfl⟩) (Or.inl rfl)
          (by intro m2 f hm2 hf; simp [hm] at hm2; subst hm2; simp [hi] at hf)
      | some f =>
        simp only
        have hthrow : Inv env (catchBlock
            { s with window := assignModules env.globals moduleNames mods,
                     trace := s.trace ++ [.metaInit true] }) := by
          simpa [catchBlock] using h.load hp _ hW
            [.metaInit true, .console .initializationFailed] (by simp)
            .settled (some false) (Or.inr ⟨rfl, rfl⟩) (Or.inl rfl)
            (fun _ _ _ _ => ⟨true, by simp⟩)
        have hreturn : Inv env (afterMeta
            { s with window := assignModules env.globals moduleNames mods,
                     trace := s.trace ++ [.metaInit false] }) := by
          unfold afterMeta
          cases hs : assignModules env.globals moduleNames mods "SeedManager" with
          | none =>
            simpa [hs, u2] using h.load hp _ hW
              [.metaInit false, .console .seedManagerNotLoaded] (by simp)
              .settled none (Or.inl rfl) (Or.inl rfl) (fun _ _ _ _ => ⟨false, by simp⟩)
          | some sm =>
            cases hg : assignModules env.globals moduleNames mods "SpoofingEngine" with
            | none =>
              simpa [hs, hg, u2] using h.load hp _ hW
                [.metaInit false, .console .spoofingEngineNotLoaded]
                (by simp) .settled none (Or.inl rfl) (Or.inl rfl)
                (fun _ _ _ _ => ⟨false, by simp⟩)
            | some engine =>
              cases he : engine.init with
              | none =>
                simpa [hs, hg, he, catchBlock] using h.load hp _ hW
                  [.metaInit false, .console .initializationFailed] (by simp)
                  .settled (some false) (Or.inr ⟨rfl, rfl⟩) (Or.inl rfl)
                  (fun _ _ _ _ => ⟨false, by simp⟩)
              | some fe =>
                simpa [hs, hg, he, u2] using h.load hp _ hW [.metaInit false] (by simp)
                  (.awaiting (fe (s.trace ++ [Event.metaInit false]).length none)) none
                  (Or.inl rfl) (Or.inr ⟨_, rfl, by simp [hs], by simp [hg], by simp⟩)
                  (fun _ _ _ _ => ⟨false, by simp⟩)
        cases hc : f s.trace.length none with
        | throws => simpa [hc] using hthrow
        | nullish => simpa [hc] using hreturn
        | value q => simpa [hc] using hreturn

theorem attempted_attemptInit (profile : Profile) (i : Interceptor) (clock : Nat) :
    attempted (attemptInit profile i clock) = [i.name] := by
  unfold attemptInit
  cases hi : i.initFn with
  | none => simp [attempted]
  | some f => cases hf : f clock (some profile) <;> simp [hf, attempted]

theorem attempted_since_initializeEach (profile : Profile) (l : List Interceptor) :
    ∀ t : List Event, attempted (since t (initializeEach profile l t)) = l.map (·.name) := by
  induction l with
  | nil => intro t; simp [initializeEach, since, attempted]
  | cons i rest ih =>
    intro t
    rw [since_initializeEach_cons, attempted_append, attempted_attemptInit, ih]
    simp

theorem inv_resume {env : Env} {s : State} (h : Inv env s) (c : Completion)
    (hp : s.phase = .awaiting c) : Inv env (resume s c) := by
  obtain ⟨u1, u2⟩ := h.unsettled (by simp [hp])
  obtain ⟨f1, f2, f3, f4⟩ := h.failed u1
  obtain ⟨r1, r2, r3⟩ := h.required (Or.inl ⟨c, hp⟩)
  have hflag : s.injectedFlag = false → False := by
    intro hf
    have := (h.once hf).1
    simp [hp] at this
  have hobs : s.observers ≠ 0 → False := by
    intro hn
    have := (h.observer hn).2.1
    simp [hp] at this
  have hload : ∀ w, loadedWindow env = some w → s.window = w :=
    h.loaded (by simp [hp]) (by simp [hp])
  have hrej : loadedWindow env = none → False := fun hl => (h.rejected hl).2.1 c hp
  have hcatch : ∀ c0 : Completion, (∀ q, c0 ≠ .value q) →
      Inv env (catchBlock { s with trace := s.trace ++ [.engineInit c0] }) := by
    intro c0 hc0
    have hv : engineValues (s.trace ++ [Event.engineInit c0]
        ++ [Event.console Console.initializationFailed]) = [] := by
      cases c0 with
      | value q => exact absurd rfl (hc0 q)
      | throws => simp [engineValues_append, u1, engineValues]
      | nullish => simp [engineValues_append, u1, engineValues]
    have hi : initCalls (s.trace ++ [Event.engineInit c0]
        ++ [Event.console Console.initializationFailed]) = [] := by
      simp [initCalls_append, f1, initCalls]
    exact
      { isolated := h.isolated
        status := by
          intro r b hm
          simp only [catchBlock, List.mem_append, List.mem_singleton, reduceCtorEq,
            or_false] at hm
          exact h.status r b hm
        once := fun hf => (hflag hf).elim
        observer := fun hn => (hobs hn).elim
        early := by intro hq; simp [catchBlock] at hq
        loaded := fun _ _ => hload
        rejected := fun hl => (hrej hl).elim
        unsettled := by intro hq; simp [catchBlock] at hq
        failed := fun _ =>
          ⟨hi, by simp [catchBlock, readyEvents_append, f2, readyEvents], f3,
            by simp [catchBlock]⟩
        succeeded := by
          intro p hm
          simp only [catchBlock] at hm
          rw [hv] at hm
          simp at hm
        required := by
          intro hr
          simp only [catchBlock] at hr
          rw [hv] at hr
          simp at hr
        metaOrder := fun _ => metaFirst_of_initCalls_nil hi
        metaCalled := by
          intro m f hm hf
          obtain ⟨b, hb⟩ := h.metaCalled m f hm hf
          exact ⟨b, by simp [catchBlock, hb]⟩ }
  unfold resume
  cases c with
  | throws => exact hcatch .throws (by simp)
  | nullish => exact hcatch .nullish (by simp)
  | value p =>
    obtain ⟨e, he, hpass⟩ := initializeEach_isPass p (interceptors s.window)
      (s.trace ++ [.engineInit (.value p), .console (.profileGenerated p.archetype)])
    have hatt : attempted e = declaredOrder := by
      have := attempted_since_initializeEach p (interceptors s.window)
        (s.trace ++ [.engineInit (.value p), .console (.profileGenerated p.archetype)])
      rw [he, since_append] at this
      rw [this]; rfl
    have hst : resume s (.value p)
        = { s with
            trace := s.trace ++ ([Event.engineInit (.value p),
              Event.console (.profileGenerated p.archetype)] ++ e
              ++ [Event.listen "chameleon-regenerate", Event.console .allInitialized,
                Event.dispatch "chameleon-ready" (some p)])
            regenerateListeners := s.regenerateListeners ++ [interceptors s.window]
            initialized := some true
            phase := .settled } := by
      have hr := resume_value_trace s p
      rw [he] at hr
      simp only [resume] at hr ⊢
      rw [hr]
      simp [List.append_assoc]
    unfold resume at hst
    rw [hst]
    have hx : ∀ r x, Event.respond r x ∉ ([Event.engineInit (.value p),
        Event.console (.profileGenerated p.archetype)] ++ e
        ++ [Event.listen "chameleon-regenerate", Event.console .allInitialized,
          Event.dispatch "chameleon-ready" (some p)]) := by
      intro r x hm
      simp only [List.mem_append, List.mem_cons, List.mem_singleton, reduceCtorEq,
        or_false, List.not_mem_nil, false_or] at hm
      exact isPass_not_respond hpass r x hm
    have hv : engineValues (s.trace ++ ([Event.engineInit (.value p),
        Event.console (.profileGenerated p.archetype)] ++ e
        ++ [Event.listen "chameleon-regenerate", Event.console .allInitialized,
          Event.dispatch "chameleon-ready" (some p)])) = [p] := by
      simp [engineValues_append, u1, engineValues, isPass_engineValues hpass]
    exact
      { isolated := h.isolated
        status := by
          intro r b hm
          rcases List.mem_append.mp hm with hm | hm
          · exact h.status r b hm
          · exact absurd hm (hx r _)
        once := fun hf => (hflag hf).elim
        observer := fun hn => (hobs hn).elim
        early := by intro hq; simp at hq
        loaded := fun _ _ => hload
        rejected := fun hl => (hrej hl).elim
        unsettled := by intro hq; simp at hq
        failed := by
          intro hq
          rw [hv] at hq
          simp at hq
        succeeded := by
          intro q hq
          rw [hv] at hq
          obtain rfl : q = p := by simpa using hq
          refine ⟨hv, rfl, ?_, by simp [f3], rfl,
            s.trace ++ [.engineInit (.value q), .console (.profileGenerated q.archetype)],
            e ++ [.listen "chameleon-regenerate", .console .allInitialized], [], ?_, ?_⟩
          · simp [readyEvents_append, f2, readyEvents, isPass_readyEvents hpass]
          · simp [List.append_assoc]
          · simp [attempted_append, hatt, attempted]
        required := fun _ => ⟨r1, r2, fun hm => List.mem_append_left _ (r3 hm)⟩
        metaOrder := fun hm => metaFirst_append_of_returned _ (h.metaOrder hm) (r3 hm)
        metaCalled := by
          intro m f hm hf
          obtain ⟨b, hb⟩ := h.metaCalled m f hm hf
          exact ⟨b, List.mem_append_left _ hb⟩ }

theorem inv_deliver {env : Env} {s : State} (h : Inv env s) (type : String)
    (detail : Option Profile) : Inv env (deliver s type detail) := by
  unfold deliver
  by_cases h1 : type = "chameleon-regenerate"
  · simp only [h1, ↓reduceIte]
    by_cases hv : engineValues s.trace = []
    · have he : s.regenerateListeners.foldl (fun t ints => onRegenerate s.window ints t) s.trace
          = s.trace := by
        rw [(h.failed hv).2.2.1]; rfl
      rw [he]
      exact h
    · obtain ⟨e, he, hpass⟩ :=
        foldl_onRegenerate_isPass s.window s.regenerateListeners s.trace
      rw [he]
      exact h.extend e (isPass_readyEvents hpass) (isPass_engineValues hpass)
        (isPass_not_metaInit hpass) (isPass_not_engineInit hpass)
        (fun r b hm => absurd hm (isPass_not_respond hpass r _)) (Or.inr hv)
        s.messageListeners s.nextRequest s.pending
  · simp only [h1, ↓reduceIte]
    by_cases h2 : type = "chameleon-profile-data"
    · simp only [h2, ↓reduceIte]
      have hobs : ∀ l : List Nat,
          readyEvents (l.map (fun r => Event.respond r (.profile detail))) = []
          ∧ engineValues (l.map (fun r => Event.respond r (.profile detail))) = []
          ∧ initCalls (l.map (fun r => Event.respond r (.profile detail))) = [] := by
        intro l
        induction l with
        | nil => simp [readyEvents, engineValues, initCalls]
        | cons a l ih => simpa [readyEvents, engineValues, initCalls] using ih
      exact h.extend _ (hobs _).1 (hobs _).2.1 (by simp) (by simp) (by simp)
        (Or.inl (hobs _).2.2) s.messageListeners s.nextRequest []
    · simpa only [h2, ↓reduceIte] using h

theorem inv_onMessage {env : Env} {s : State} (h : Inv env s) (r : Nat) (action : String) :
    Inv env (onMessage r action s) := by
  unfold onMessage
  by_cases h1 : action = "getProfile"
  · simp only [h1, ↓reduceIte]
    have h2 := h.extend [.dispatch "chameleon-get-profile" none] (by simp [readyEvents])
      rfl (by simp) (by simp) (by simp) (Or.inl rfl) s.messageListeners s.nextRequest s.pending
    have h3 := inv_deliver h2 "chameleon-get-profile" none
    exact h3.extend [.listen "chameleon-profile-data"] rfl rfl (by simp) (by simp) (by simp)
      (Or.inl rfl) _ _ _
  · simp only [h1, ↓reduceIte]
    by_cases h2 : action = "regenerateProfile"
    · simp only [h2, ↓reduceIte]
      have h3 := h.extend [.dispatch "chameleon-regenerate" none] (by simp [readyEvents])
        rfl (by simp) (by simp) (by simp) (Or.inl rfl) s.messageListeners s.nextRequest
        s.pending
      have h4 := inv_deliver h3 "chameleon-regenerate" none
      exact h4.extend [.respond r .success] rfl rfl (by simp) (by simp) (by simp)
        (Or.inl rfl) _ _ _
    · simp only [h2, ↓reduceIte]
      by_cases h3 : action = "getStatus"
      · simp only [h3, ↓reduceIte]
        exact h.extend [.respond r (.initialized (s.isolatedInitialized.getD false))] rfl rfl
          (by simp) (by simp) (by simp [h.isolated]) (Or.inl rfl) _ _ _
      · simpa only [h3, ↓reduceIte] using h

theorem inv_iterate {env : Env} (f : State → State) (hf : ∀ s, Inv env s → Inv env (f s)) :
    ∀ (n : Nat) (s : State), Inv env s → Inv env (f^[n] s) := by
  intro n
  induction n with
  | zero => intro s h; exact h
  | succ n ih => intro s h; exact ih (f s) (hf s h)

theorem inv_step {env : Env} {s : State} (h : Inv env s) (i : Input) :
    Inv env (step env s i) := by
  cases i with
  | contentScript => exact inv_contentScript h
  | rootCreated => exact inv_rootCreated h
  | importsSettle =>
    unfold step
    cases hp : s.phase with
    | loading => exact inv_importsSettle h hp
    | _ => exact h
  | engineSettles =>
    unfold step
    cases hp : s.phase with
    | awaiting c => exact inv_resume h c hp
    | _ => exact h
  | message action =>
    unfold step
    refine inv_iterate _ (fun x hx => inv_onMessage hx _ _) _ _ ?_
    simpa using h.extend [] rfl rfl (by simp) (by simp) (by simp) (Or.inl rfl)
      s.messageListeners (s.nextRequest + 1) s.pending
  | windowEvent type detail => exact inv_deliver h type detail

theorem inv_foldl {env : Env} (ins : List Input) :
    ∀ s : State, Inv env s → Inv env (ins.foldl (step env) s) := by
  induction ins with
  | nil => intro s h; exact h
  | cons i ins ih => intro s h; exact ih _ (inv_step h i)

/-- The invariant holds of every state of a run. -/
theorem inv_run (env : Env) (ins : List Input) : Inv env (run env ins) :=
  inv_foldl ins _ (inv_initial env)

theorem mem_engineValues {t : List Event} {p : Profile} :
    p ∈ engineValues t ↔ Event.engineInit (.value p) ∈ t := by
  induction t with
  | nil => simp [engineValues]
  | cons e t ih =>
    cases e with
    | engineInit c => cases c <;> simp [engineValues, ih]
    | _ => simp [engineValues, ih]

theorem mem_initCalls {t : List Event} {n : String} {p : Profile} {b : Bool}
    (h : Event.init n p b ∈ t) : (n, p) ∈ initCalls t := by
  induction t with
  | nil => simp at h
  | cons e t ih =>
    rcases List.mem_cons.mp h with h1 | h1
    · subst h1; simp [initCalls]
    · have h2 := ih h1
      cases e <;> simp [initCalls, h2]

theorem initCalls_attemptReinit (profile : Profile) (i : Interceptor) (clock : Nat) :
    initCalls (attemptReinit profile i clock)
      = if i.available then [(i.name, profile)] else [] := by
  unfold attemptReinit Interceptor.available
  cases h : i.initFn with
  | none => simp [initCalls]
  | some f => cases hf : f clock (some profile) <;> simp [initCalls, hf]

theorem initCalls_reinitializeEach (profile : Profile) (l : List Interceptor) :
    ∀ t : List Event, initCalls (reinitializeEach profile l t)
      = initCalls t ++ (l.filter (·.available)).map (fun i => (i.name, profile)) := by
  induction l with
  | nil => intro t; simp [reinitializeEach]
  | cons i rest ih =>
    intro t
    rw [reinitializeEach, ih, initCalls_append, initCalls_attemptReinit]
    cases h : i.available <;> simp [List.filter, h]

/-! ## The boot pass -/

/-- C1: whatever the profile and whichever interceptors are available, the
`init` calls of the boot pass of `initializeChameleon` are exactly those of the
available interceptors, each once with the profile, in the declared order
Navigator, Screen, Canvas, WebGL, Audio, Fonts, Plugins, Timezone. -/
theorem boot_pass_calls_available_in_declared_order (s : State) (profile : Profile) :
    (interceptors s.window).map (·.name)
        = ["Navigator", "Screen", "Canvas", "WebGL", "Audio", "Fonts", "Plugins", "Timezone"]
      ∧ initCalls (since s.trace (resume s (.value profile)).trace)
        = ((interceptors s.window).filter (·.available)).map (fun i => (i.name, profile))
      ∧ List.Sublist ((initCalls (since s.trace (resume s (.value profile)).trace)).map (·.1))
          ["Navigator", "Screen", "Canvas", "WebGL", "Audio", "Fonts", "Plugins", "Timezone"]
      ∧ ((initCalls (since s.trace (resume s (.value profile)).trace)).map (·.1)).Nodup := by
  have hcalls : initCalls (since s.trace (resume s (.value profile)).trace)
      = ((interceptors s.window).filter (·.available)).map (fun i => (i.name, profile)) := by
    rw [since_resume_value, initCalls_append, initCalls_append, initCalls_since_initializeEach]
    simp [initCalls]
  have hsub : List.Sublist
      ((initCalls (since s.trace (resume s (.value profile)).trace)).map (·.1))
      ((interceptors s.window).map (·.name)) := by
    rw [hcalls, List.map_map]
    exact (List.filter_sublist _).map _
  refine ⟨rfl, hcalls, ?_, ?_⟩
  · rw [← interceptors_names s.window]; exact hsub
  · exact hsub.nodup (interceptors_names_nodup s.window)

/-- C2: in the boot pass, if the `init` of the interceptor at position `k`
throws, every available interceptor at a later position `j` still has its `init`
called afterwards, with the same profile. -/
theorem boot_pass_failure_isolated (s : State) (profile : Profile) (k j : Nat)
    (ik ij : Interceptor) (hk : (interceptors s.window)[k]? = some ik)
    (hj : (interceptors s.window)[j]? = some ij) (hkj : k < j)
    (hthrow : Event.init ik.name profile true
      ∈ since s.trace (resume s (.value profile)).trace)
    (hav : ij.available = true) :
    ∃ b, List.Sublist [Event.init ik.name profile true, Event.init ij.name profile b]
      (since s.trace (resume s (.value profile)).trace) := by
  rw [since_resume_value] at hthrow ⊢
  simp only [List.mem_append, List.mem_cons, List.mem_singleton, List.not_mem_nil, or_false,
    reduceCtorEq, false_or] at hthrow
  obtain ⟨b, hb⟩ := pass_continues_after_throw profile (interceptors s.window) _ k j ik ij
    (interceptors_names_nodup s.window) hk hj hkj hthrow hav
  exact ⟨b, (hb.trans (List.sublist_append_right _ _)).trans (List.sublist_append_left _ _)⟩

theorem boot_pass_failure_isolated_witness :
    Event.init "Navigator" profileA true
        ∈ since (run fullPage [.contentScript, .importsSettle]).trace
            (resume (run fullPage [.contentScript, .importsSettle]) (.value profileA)).trace
      ∧ ∃ b, List.Sublist
          [Event.init "Navigator" profileA true, Event.init "Screen" profileA b]
          (since (run fullPage [.contentScript, .importsSettle]).trace
            (resume (run fullPage [.contentScript, .importsSettle]) (.value profileA)).trace) := by
  have h : Event.init "Navigator" profileA true
      ∈ since (run fullPage [.contentScript, .importsSettle]).trace
          (resume (run fullPage [.contentScript, .importsSettle]) (.value profileA)).trace := by
    decide!
  exact ⟨h, boot_pass_failure_isolated (run fullPage [.contentScript, .importsSettle]) profileA
    0 1 { name := "Navigator",
          module := (run fullPage [.contentScript, .importsSettle]).window "NavigatorInterceptor" }
    { name := "Screen",
      module := (run fullPage [.contentScript, .importsSettle]).window "ScreenInterceptor" }
    rfl rfl (by decide) h (by decide!)⟩

/-! ## The meta interceptor -/

/-- C3, as the source has it: on a page where `window.MetaInterceptor` is
absent, the Navigator interceptor is initialised in a run in which the meta
interceptor's `init` is never called. -/
theorem meta_init_skipped_when_absent :
    Event.init "Navigator" profileA true ∈ (run pageWithoutMeta bootInputs).trace
      ∧ ∀ b, Event.metaInit b ∉ (run pageWithoutMeta bootInputs).trace := by
  decide!

/-- C3, amended: in every run in which `window.MetaInterceptor` is present when
`initializeChameleon` starts, the meta interceptor's `init` is called (if it is
a function) and every `init` of a spoofing interceptor, at boot or on
regeneration, comes after a call of the meta interceptor's `init` that has
returned. -/
theorem meta_init_precedes_interceptors (env : Env) (ins : List Input)
    (hmeta : (run env ins).window "MetaInterceptor" ≠ none) :
    (∀ m, (run env ins).window "MetaInterceptor" = some m → m.init.isSome = true →
        ∃ b, Event.metaInit b ∈ (run env ins).trace)
      ∧ ∀ (pre post : List Event) (n : String) (p : Profile) (b : Bool),
        (run env ins).trace = pre ++ Event.init n p b :: post →
          Event.metaInit false ∈ pre := by
  have h := inv_run env ins
  refine ⟨?_, metaFirst_spec (h.metaOrder hmeta)⟩
  intro m hm hf
  obtain ⟨f, hf⟩ := Option.isSome_iff_exists.mp hf
  exact h.metaCalled m f hm hf

theorem meta_init_precedes_interceptors_witness :
    (run fullPage (bootInputs ++ [.message "regenerateProfile"])).window "MetaInterceptor"
        ≠ none
      ∧ ((∀ m, (run fullPage (bootInputs ++ [.message "regenerateProfile"])).window
            "MetaInterceptor" = some m → m.init.isSome = true →
          ∃ b, Event.metaInit b
            ∈ (run fullPage (bootInputs ++ [.message "regenerateProfile"])).trace)
        ∧ ∀ (pre post : List Event) (n : String) (p : Profile) (b : Bool),
          (run fullPage (bootInputs ++ [.message "regenerateProfile"])).trace
              = pre ++ Event.init n p b :: post →
            Event.metaInit false ∈ pre) :=
  ⟨Option.ne_none_iff_isSome.mpr (by decide!),
    meta_init_precedes_interceptors fullPage (bootInputs ++ [.message "regenerateProfile"])
      (Option.ne_none_iff_isSome.mpr (by decide!))⟩

/-! ## A failed load -/

/-- C4, as the source has it: on a page where every import resolves and
`window.SeedManager` is absent, the meta interceptor's `init` is called all the
same, before the check of line 68. -/
theorem meta_init_called_without_seed_manager :
    (∃ w, loadedWindow pageWithoutSeedManager = some w ∧ w "SeedManager" = none)
      ∧ Event.metaInit false ∈ (run pageWithoutSeedManager bootInputs).trace :=
  ⟨⟨_, rfl, Option.isNone_iff_eq_none.mp (by decide!)⟩, by decide!⟩

/-- C4, amended: if an import rejects, no `init` is called at all; if all the
modules load and `SeedManager` or `SpoofingEngine` is absent after loading,
no spoofing interceptor's `init` is called.  In both cases `chameleon-ready` is
never dispatched, the initialized flag of the page never becomes true, and
every `getStatus` answer is `{initialized: false}`. -/
theorem failed_load_initializes_no_spoofing_interceptor (env : Env) (ins : List Input)
    (h : loadedWindow env = none
      ∨ ∃ w, loadedWindow env = some w
          ∧ (w "SeedManager" = none ∨ w "SpoofingEngine" = none)) :
    initCalls (run env ins).trace = []
      ∧ (loadedWindow env = none → ∀ b, Event.metaInit b ∉ (run env ins).trace)
      ∧ readyEvents (run env ins).trace = []
      ∧ (run env ins).initialized ≠ some true
      ∧ (run env ins).isolatedInitialized = none
      ∧ ∀ r b, Event.respond r (.initialized b) ∈ (run env ins).trace → b = false := by
  have hi := inv_run env ins
  have hv : engineValues (run env ins).trace = [] := by
    rcases h with h | ⟨w, hw, h⟩
    · exact (hi.rejected h).2.2
    · by_contra hv
      obtain ⟨r1, r2, _⟩ := hi.required (Or.inr hv)
      have hp : (run env ins).phase = .settled := by
        by_contra hp
        exact hv (hi.unsettled hp).1
      have hw2 := hi.loaded (by simp [hp]) (by simp [hp]) w hw
      rw [hw2] at r1 r2
      rcases h with h | h
      · exact r1 h
      · exact r2 h
  obtain ⟨f1, f2, _, f4⟩ := hi.failed hv
  exact ⟨f1, fun hl => (hi.rejected hl).1, f2, f4, hi.isolated, hi.status⟩

theorem failed_load_initializes_no_spoofing_interceptor_witness :
    (loadedWindow pageWithoutSeedManager = none
        ∨ ∃ w, loadedWindow pageWithoutSeedManager = some w
            ∧ (w "SeedManager" = none ∨ w "SpoofingEngine" = none))
      ∧ initCalls (run pageWithoutSeedManager
          (bootInputs ++ [.message "getStatus"])).trace = []
      ∧ readyEvents (run pageWithoutSeedManager
          (bootInputs ++ [.message "getStatus"])).trace = []
      ∧ (run pageWithoutSeedManager (bootInputs ++ [.message "getStatus"])).initialized
          ≠ some true :=
  have hyp : loadedWindow pageWithoutSeedManager = none
      ∨ ∃ w, loadedWindow pageWithoutSeedManager = some w
          ∧ (w "SeedManager" = none ∨ w "SpoofingEngine" = none) :=
    Or.inr ⟨_, rfl, Or.inl (Option.isNone_iff_eq_none.mp (by decide!))⟩
  have h := failed_load_initializes_no_spoofing_interceptor pageWithoutSeedManager
    (bootInputs ++ [.message "getStatus"]) hyp
  ⟨hyp, h.1, h.2.2.1, h.2.2.2.1⟩

/-! ## Readiness -/

/-- C5: in every run in which the awaited `SpoofingEngine.init()` returns a
profile, `chameleon-ready` is dispatched exactly once, with that profile, after
a pass that attempted the eight interceptors, whichever of them are unavailable
or throw and whatever comes later, regenerations included. -/
theorem ready_dispatched_once_after_pass (env : Env) (ins : List Input) (p : Profile)
    (h : Event.engineInit (.value p) ∈ (run env ins).trace) :
    readyEvents (run env ins).trace = [some p]
      ∧ ∃ pre pass post,
          (run env ins).trace
            = pre ++ pass ++ Event.dispatch "chameleon-ready" (some p) :: post
          ∧ attempted pass
            = ["Navigator", "Screen", "Canvas", "WebGL", "Audio", "Fonts", "Plugins",
                "Timezone"] := by
  obtain ⟨_, _, h3, _, _, h6⟩ := (inv_run env ins).succeeded p (mem_engineValues.mpr h)
  exact ⟨h3, h6⟩

theorem ready_dispatched_once_after_pass_witness :
    Event.engineInit (.value profileA)
        ∈ (run fullPage (bootInputs
            ++ [.message "regenerateProfile", .message "regenerateProfile"])).trace
      ∧ readyEvents (run fullPage (bootInputs
            ++ [.message "regenerateProfile", .message "regenerateProfile"])).trace
          = [some profileA] := by
  have h : Event.engineInit (.value profileA)
      ∈ (run fullPage (bootInputs
          ++ [.message "regenerateProfile", .message "regenerateProfile"])).trace := by
    decide!
  exact ⟨h, (ready_dispatched_once_after_pass fullPage _ profileA h).1⟩

/-! ## The control channel -/

/-- C6, evaluated: after a completed boot, a `getProfile` request dispatches
`chameleon-get-profile` and waits; nothing listens for that event, no
`chameleon-profile-data` is dispatched and the request stays pending without
an answer. -/
theorem getProfile_request_left_pending :
    (run fullPage bootInputs).initialized = some true
      ∧ since (run fullPage bootInputs).trace
          (run fullPage (bootInputs ++ [.message "getProfile"])).trace
        = [.dispatch "chameleon-get-profile" none, .listen "chameleon-profile-data"]
      ∧ (run fullPage (bootInputs ++ [.message "getProfile"])).pending = [0] := by
  decide!

/-- C7, evaluated: after a boot that has dispatched `chameleon-ready` and set the
flag of the page, a `getStatus` request is answered `{initialized: false}`: the
listener reads the flag of the content script's world, which nothing sets. -/
theorem getStatus_false_after_ready :
    readyEvents (run fullPage bootInputs).trace = [some profileA]
      ∧ (run fullPage bootInputs).initialized = some true
      ∧ since (run fullPage bootInputs).trace
          (run fullPage (bootInputs ++ [.message "getStatus"])).trace
        = [.respond 0 (.initialized false)] := by
  decide!

theorem unanswered_append (a b : List Event) :
    unanswered (a ++ b) = (unanswered a && unanswered b) := by
  simp [unanswered, List.all_append]

theorem unanswered_of_isPass {e : List Event} (h : ∀ x ∈ e, x.isPass = true) :
    unanswered e = true := by
  simp only [unanswered, List.all_eq_true, Bool.not_eq_true', Event.isProfileAnswer]
  intro x hx
  have := h x hx
  cases x <;> simp_all [Event.isPass]

theorem unanswered_iterate (f : State → State)
    (hf : ∀ s, unanswered s.trace = true → unanswered (f s).trace = true) :
    ∀ (n : Nat) (s : State), unanswered s.trace = true → unanswered (f^[n] s).trace = true := by
  intro n
  induction n with
  | zero => intro s h; exact h
  | succ n ih => intro s h; exact ih (f s) (hf s h)

theorem unanswered_initializeChameleon (s : State) (h : unanswered s.trace = true) :
    unanswered (initializeChameleon s).trace = true := by
  unfold initializeChameleon afterMeta catchBlock
  repeat' split
  all_goals simp_all [unanswered, Event.isProfileAnswer]

theorem unanswered_resume (s : State) (c : Completion) (h : unanswered s.trace = true) :
    unanswered (resume s c).trace = true := by
  cases c with
  | throws => simp_all [resume, catchBlock, unanswered, Event.isProfileAnswer]
  | nullish => simp_all [resume, catchBlock, unanswered, Event.isProfileAnswer]
  | value p =>
    obtain ⟨e, he, hpass⟩ := initializeEach_isPass p (interceptors s.window)
      (s.trace ++ [.engineInit (.value p), .console (.profileGenerated p.archetype)])
    rw [resume_value_trace, he]
    simp only [unanswered_append, h, unanswered_of_isPass hpass, Bool.true_and, Bool.and_true]
    simp [unanswered, Event.isProfileAnswer]

theorem unanswered_deliver (s : State) (type : String) (detail : Option Profile)
    (ht : type ≠ "chameleon-profile-data") (h : unanswered s.trace = true) :
    unanswered (deliver s type detail).trace = true := by
  unfold deliver
  by_cases h1 : type = "chameleon-regenerate"
  · simp only [h1, ↓reduceIte]
    obtain ⟨e, he, hpass⟩ := foldl_onRegenerate_isPass s.window s.regenerateListeners s.trace
    rw [he, unanswered_append, h, unanswered_of_isPass hpass]
    rfl
  · simp only [h1, ht, ↓reduceIte]
    exact h

theorem unanswered_onMessage (r : Nat) (action : String) (s : State)
    (h : unanswered s.trace = true) : unanswered (onMessage r action s).trace = true := by
  unfold onMessage
  by_cases h1 : action = "getProfile"
  · simp only [h1, ↓reduceIte]
    have h2 := unanswered_deliver
      { s with trace := s.trace ++ [.dispatch "chameleon-get-profile" none] }
      "chameleon-get-profile" none (by decide)
      (by simp only [unanswered_append, h, Bool.true_and]; decide)
    simp only [unanswered_append, h2, Bool.true_and]
    decide
  · simp only [h1, ↓reduceIte]
    by_cases h2 : action = "regenerateProfile"
    · simp only [h2, ↓reduceIte]
      have h3 := unanswered_deliver
        { s with trace := s.trace ++ [.dispatch "chameleon-regenerate" none] }
        "chameleon-regenerate" none (by decide)
        (by simp only [unanswered_append, h, Bool.true_and]; decide)
      simp only [unanswered_append, h3, Bool.true_and]
      rfl
    · simp only [h2, ↓reduceIte]
      by_cases h3 : action = "getStatus"
      · simp only [h3, ↓reduceIte, unanswered_append, h, Bool.true_and]
        rfl
      · simpa only [h3, ↓reduceIte] using h

theorem unanswered_step (env : Env) (s : State) (i : Input)
    (hi : ∀ d, i ≠ .windowEvent "chameleon-profile-data" d)
    (h : unanswered s.trace = true) : unanswered (step env s i).trace = true := by
  cases i with
  | contentScript =>
    simp only [step, contentScript, loadModules, injectScript]
    repeat' split
    all_goals simp_all [unanswered, Event.isProfileAnswer]
  | rootCreated =>
    simp only [step]
    split
    · exact h
    · refine unanswered_iterate _ ?_ _ _ h
      intro x hx
      simp_all [observerCallback, injectScript, unanswered, Event.isProfileAnswer]
  | importsSettle =>
    simp only [step]
    split
    · unfold importsSettle
      split
      · exact unanswered_initializeChameleon _ h
      · simp_all [unanswered, Event.isProfileAnswer]
    · exact h
  | engineSettles =>
    simp only [step]
    split
    · exact unanswered_resume s _ h
    · exact h
  | message action =>
    simp only [step]
    exact unanswered_iterate _ (unanswered_onMessage _ _) _ _ h
  | windowEvent type detail =>
    refine unanswered_deliver s type detail ?_ h
    intro ht
    exact hi detail (by rw [ht])

theorem unanswered_foldl (env : Env) (ins : List Input)
    (hi : ∀ d, Input.windowEvent "chameleon-profile-data" d ∉ ins) :
    ∀ s : State, unanswered s.trace = true →
      unanswered (ins.foldl (step env) s).trace = true := by
  induction ins with
  | nil => intro s h; exact h
  | cons i ins ih =>
    intro s h
    refine ih (fun d hd => hi d (List.mem_cons_of_mem _ hd)) _
      (unanswered_step env s i (fun d hd => hi d (hd ▸ List.mem_cons_self _ _)) h)

/-- In every run in which no other script dispatches `chameleon-profile-data`,
no such event is dispatched and no `getProfile` request is answered. -/
theorem getProfile_never_answered (env : Env) (ins : List Input)
    (hi : ∀ d, Input.windowEvent "chameleon-profile-data" d ∉ ins) :
    (∀ d, Event.dispatch "chameleon-profile-data" d ∉ (run env ins).trace)
      ∧ ∀ r d, Event.respond r (.profile d) ∉ (run env ins).trace := by
  have h := unanswered_foldl env ins hi (State.initial env) rfl
  simp only [unanswered, List.all_eq_true, Bool.not_eq_true'] at h
  constructor
  · intro d hm
    simpa [Event.isProfileAnswer] using h _ hm
  · intro r d hm
    simpa [Event.isProfileAnswer] using h _ hm

/-- In every run, every `getStatus` answer is `{initialized: false}`. -/
theorem getStatus_answers_false (env : Env) (ins : List Input) (r : Nat) (b : Bool)
    (h : Event.respond r (.initialized b) ∈ (run env ins).trace) : b = false :=
  (inv_run env ins).status r b h

/-- In every run, the flag of the page is true exactly when `chameleon-ready`
has been dispatched. -/
theorem page_flag_iff_ready (env : Env) (ins : List Input) :
    (run env ins).initialized = some true ↔ readyEvents (run env ins).trace ≠ [] := by
  have h := inv_run env ins
  by_cases hv : engineValues (run env ins).trace = []
  · obtain ⟨_, f2, _, f4⟩ := h.failed hv
    simp [f2, f4]
  · obtain ⟨p, hp⟩ := List.exists_mem_of_ne_nil _ hv
    obtain ⟨_, h2, h3, _⟩ := h.succeeded p hp
    simp [h2, h3]

/-! ## Regeneration -/

theorem onRegenerate_value (w : Window) (ints : List Interceptor) (t : List Event)
    (engine : ModuleObj) (g : Nat → Completion) (q : Profile)
    (hw : w "SpoofingEngine" = some engine) (hg : engine.regenerateProfile = some g)
    (hq : g t.length = .value q) :
    ∃ e, onRegenerate w ints t
        = t ++ ([.regenerate (.value q), .console (.profileRegenerated q.archetype)] ++ e)
      ∧ (∀ x ∈ e, x.isPass = true)
      ∧ initCalls e = (ints.filter (·.available)).map (fun i => (i.name, q)) := by
  obtain ⟨e, he, hpass⟩ := reinitializeEach_isPass q ints
    (t ++ [.regenerate (.value q), .console (.profileRegenerated q.archetype)])
  refine ⟨e, ?_, hpass, ?_⟩
  · simp [onRegenerate, hw, hg, hq, he]
  · have h := initCalls_reinitializeEach q ints
      (t ++ [.regenerate (.value q), .console (.profileRegenerated q.archetype)])
    rw [he, initCalls_append] at h
    exact List.append_cancel_left h

/-- C8: after boot, when `chameleon-regenerate` fires and
`SpoofingEngine.regenerateProfile()` returns a profile, the listener calls
`init` with that profile, and with no other, on exactly the available
interceptors in the order of the boot pass, whichever of them throw, and does
not call the meta interceptor's `init`. -/
theorem regeneration_reinitializes_available (env : Env) (ins : List Input)
    (p newProfile : Profile) (engine : ModuleObj) (g : Nat → Completion)
    (detail : Option Profile)
    (hboot : Event.engineInit (.value p) ∈ (run env ins).trace)
    (hengine : (run env ins).window "SpoofingEngine" = some engine)
    (hg : engine.regenerateProfile = some g)
    (hnew : g (run env ins).trace.length = .value newProfile) :
    Event.regenerate (.value newProfile)
        ∈ since (run env ins).trace
            (step env (run env ins) (.windowEvent "chameleon-regenerate" detail)).trace
      ∧ initCalls (since (run env ins).trace
            (step env (run env ins) (.windowEvent "chameleon-regenerate" detail)).trace)
          = ((interceptors (run env ins).window).filter (·.available)).map
              (fun i => (i.name, newProfile))
      ∧ (∀ b, Event.metaInit b
          ∉ since (run env ins).trace
              (step env (run env ins) (.windowEvent "chameleon-regenerate" detail)).trace)
      ∧ (newProfile ≠ p → ∀ n b, Event.init n p b
          ∉ since (run env ins).trace
              (step env (run env ins) (.windowEvent "chameleon-regenerate" detail)).trace) := by
  obtain ⟨_, _, _, h4, _⟩ := (inv_run env ins).succeeded p (mem_engineValues.mpr hboot)
  obtain ⟨e, he, hpass, hcalls⟩ := onRegenerate_value (run env ins).window
    (interceptors (run env ins).window) (run env ins).trace engine g newProfile hengine hg hnew
  have hs : since (run env ins).trace
      (step env (run env ins) (.windowEvent "chameleon-regenerate" detail)).trace
      = [.regenerate (.value newProfile), .console (.profileRegenerated newProfile.archetype)]
        ++ e := by
    simp only [step, deliver, ↓reduceIte, h4, List.foldl_cons, List.foldl_nil]
    rw [he, since_append]
  rw [hs]
  have hc : initCalls ([Event.regenerate (.value newProfile),
      Event.console (.profileRegenerated newProfile.archetype)] ++ e)
      = ((interceptors (run env ins).window).filter (·.available)).map
          (fun i => (i.name, newProfile)) := by
    rw [initCalls_append, hcalls]; rfl
  refine ⟨by simp, hc, ?_, ?_⟩
  · intro b hm
    simp only [List.mem_append, List.mem_cons, List.mem_singleton, reduceCtorEq,
      List.not_mem_nil, or_false, false_or] at hm
    exact isPass_not_metaInit hpass b hm
  · intro hne n b hm
    have h1 := mem_initCalls hm
    rw [hc] at h1
    obtain ⟨i, _, hi⟩ := List.mem_map.mp h1
    exact hne (Prod.mk.inj hi).2

theorem regeneration_reinitializes_available_witness :
    Event.engineInit (.value profileA) ∈ (run fullPage bootInputs).trace
      ∧ initCalls (since (run fullPage bootInputs).trace
          (step fullPage (run fullPage bootInputs)
            (.windowEvent "chameleon-regenerate" none)).trace)
        = ((interceptors (run fullPage bootInputs).window).filter (·.available)).map
            (fun i => (i.name, profileB)) := by
  have h : Event.engineInit (.value profileA) ∈ (run fullPage bootInputs).trace := by
    decide!
  exact ⟨h, (regeneration_reinitializes_available fullPage bootInputs profileA profileB
    engineModule (fun _ => .value profileB) none h rfl rfl rfl).2.1⟩

/-! ## The guards -/

theorem jsSplit_ne_nil (sep : Char) (s : List Char) : jsSplit sep s ≠ [] := by
  cases s with
  | nil => simp [jsSplit]
  | cons c cs =>
    unfold jsSplit
    split
    · simp
    · split <;> simp

theorem jsJoin_cons_cons (sep c : Char) (l : List Char) (ls : List (List Char)) :
    jsJoin sep ((c :: l) :: ls) = c :: jsJoin sep (l :: ls) := by
  cases ls <;> simp [jsJoin]

/-- Joining the lines of a text gives the text back. -/
theorem jsJoin_jsSplit (sep : Char) (s : List Char) : jsJoin sep (jsSplit sep s) = s := by
  induction s with
  | nil => simp [jsSplit, jsJoin]
  | cons c cs ih =>
    unfold jsSplit
    by_cases h : c = sep
    · simp only [h, ↓reduceIte]
      cases hs : jsSplit sep cs with
      | nil => exact absurd hs (jsSplit_ne_nil sep cs)
      | cons l ls =>
        rw [hs] at ih
        simp [jsJoin, ih]
    · simp only [h, ↓reduceIte]
      cases hs : jsSplit sep cs with
      | nil => exact absurd hs (jsSplit_ne_nil sep cs)
      | cons l ls =>
        rw [hs] at ih
        simp only
        rw [jsJoin_cons_cons, ih]

/-- The lines of a text have no separator in them. -/
theorem jsSplit_no_separator (sep : Char) (s : List Char) :
    ∀ line ∈ jsSplit sep s, sep ∉ line := by
  induction s with
  | nil => simp [jsSplit]
  | cons c cs ih =>
    unfold jsSplit
    by_cases h : c = sep
    · simp only [h, ↓reduceIte, List.mem_cons]
      rintro line (rfl | hl)
      · simp
      · exact ih line hl
    · simp only [h, ↓reduceIte]
      cases hs : jsSplit sep cs with
      | nil => exact absurd hs (jsSplit_ne_nil sep cs)
      | cons l ls =>
        rw [hs] at ih
        simp only [List.mem_cons]
        rintro line (rfl | hl)
        · have := ih l (List.mem_cons_self _ _)
          simp only [List.mem_cons, not_or]
          exact ⟨fun hc => h hc.symm, this⟩
        · exact ih line (List.mem_cons_of_mem _ hl)

/-- What `jsStartsWith` computes: `s` is `p` followed by something. -/
theorem jsStartsWith_iff (s p : List Char) : jsStartsWith s p = true ↔ p <+: s := by
  simp [jsStartsWith, List.isPrefixOf_iff_prefix]

/-- What `jsIncludes` computes: `p` occurs in `s`. -/
theorem jsIncludes_iff (s p : List Char) : jsIncludes s p = true ↔ p <:+: s := by
  induction s with
  | nil =>
    simp only [jsIncludes, List.isEmpty_iff, List.infix_nil]
  | cons c cs ih =>
    simp only [jsIncludes, Bool.or_eq_true, ih, List.infix_cons_iff,
      List.isPrefixOf_iff_prefix]

/-- C9: the replacement of `Object.getOwnPropertyNames` returns, for every
object, the names that the original returns and that do not start with
`__chameleon`, in the original order; none of the names returned starts with
the marker, and names without the marker come back unchanged. -/
theorem wrapped_names_are_the_unmarked (α : Type) (original : α → Option (List (List Char)))
    (obj : α) (names : List (List Char)) (h : original obj = some names) :
    ∃ result, wrappedGetOwnPropertyNames original obj = some result
      ∧ result = names.filter (fun n => decide (¬ marker <+: n))
      ∧ List.Sublist result names
      ∧ (∀ n, n ∈ result ↔ n ∈ names ∧ ¬ marker <+: n)
      ∧ ((∀ n ∈ names, ¬ marker <+: n) → result = names) := by
  have hf : (fun prop : List Char => !jsStartsWith prop marker)
      = fun n => decide (¬ marker <+: n) := by
    funext n
    by_cases hp : marker <+: n
    · simp [hp, (jsStartsWith_iff n marker).mpr hp]
    · have : jsStartsWith n marker = false := by
        simpa using fun hc => hp ((jsStartsWith_iff n marker).mp hc)
      simp [hp, this]
  refine ⟨names.filter (fun n => decide (¬ marker <+: n)), ?_, rfl, List.filter_sublist _, ?_, ?_⟩
  · simp [wrappedGetOwnPropertyNames, h, hf]
  · intro n; simp [List.mem_filter]
  · intro hall
    exact List.filter_eq_self.mpr (fun n hn => by simpa using hall n hn)

theorem wrapped_names_are_the_unmarked_witness :
    ∃ result, wrappedGetOwnPropertyNames (fun _ : Unit => some sampleNames) () = some result
      ∧ result = sampleNames.filter (fun n => decide (¬ marker <+: n))
      ∧ List.Sublist result sampleNames
      ∧ (∀ n, n ∈ result ↔ n ∈ sampleNames ∧ ¬ marker <+: n)
      ∧ ((∀ n ∈ sampleNames, ¬ marker <+: n) → result = sampleNames) :=
  wrapped_names_are_the_unmarked Unit (fun _ => some sampleNames) () sampleNames rfl

/-- What the trap computes: the stack split on newlines, without the lines
that contain the text `chameleon`, the other lines kept in order and joined by
newlines; a stack none of whose lines contains that text, or no stack at all,
is left unchanged. -/
theorem stack_lines_with_needle_removed (st : List Char) :
    cleanStack (some st)
        = some (jsJoin '\n' ((jsSplit '\n' st).filter (fun line => decide (¬ needle <:+: line))))
      ∧ List.Sublist ((jsSplit '\n' st).filter (fun line => decide (¬ needle <:+: line)))
          (jsSplit '\n' st)
      ∧ jsJoin '\n' (jsSplit '\n' st) = st
      ∧ ((∀ line ∈ jsSplit '\n' st, ¬ needle <:+: line) → cleanStack (some st) = some st)
      ∧ cleanStack none = none := by
  have hf : (fun line : List Char => !jsIncludes line needle)
      = fun line => decide (¬ needle <:+: line) := by
    funext line
    by_cases hp : needle <:+: line
    · simp [hp, (jsIncludes_iff line needle).mpr hp]
    · have : jsIncludes line needle = false := by
        simpa using fun hc => hp ((jsIncludes_iff line needle).mp hc)
      simp [hp, this]
  have hkeep : (∀ line ∈ jsSplit '\n' st, ¬ needle <:+: line) →
      jsJoin '\n' ((jsSplit '\n' st).filter (fun line => decide (¬ needle <:+: line))) = st := by
    intro hall
    rw [List.filter_eq_self.mpr (fun n hn => by simpa using hall n hn), jsJoin_jsSplit]
  have hmain : cleanStack (some st)
      = some (jsJoin '\n'
          ((jsSplit '\n' st).filter (fun line => decide (¬ needle <:+: line)))) := by
    cases st with
    | nil =>
      have hn : ¬ needle <:+: ([] : List Char) := by decide
      simp [cleanStack, jsSplit, jsJoin, hn]
    | cons c cs => simp [cleanStack, hf]
  refine ⟨hmain, List.filter_sublist _, jsJoin_jsSplit _ _, ?_, rfl⟩
  intro hall
  rw [hmain, hkeep hall]

/-- None of the locators of the injected modules has the text that line 161
looks for. -/
theorem locators_lack_needle : ∀ m ∈ modules, jsIncludes m.toList needle = false := by
  decide!

/-- C10, evaluated: the test of line 161 is not the test for a line of the
injected code.  In the stack of an error with a frame in the injected
`canvasInterceptor.js` that frame references the injected code and is kept (the
stack comes back unchanged); and the stack of `new Error('chameleon is a
lizard')`, no line of which references the injected code, loses its first
line. -/
theorem injected_frame_kept_innocent_line_dropped :
    (jsSplit '\n' frameStack).map (referencesInjectedCode extensionOrigin)
        = [false, true, false]
      ∧ cleanStack (some frameStack) = some frameStack
      ∧ (jsSplit '\n' lizardStack).map (referencesInjectedCode extensionOrigin)
        = [false, false]
      ∧ cleanStack (some lizardStack)
        = some "    at g (https://example.com/app.js:2:2)".toList := by
  decide!

/-! ## The names of the modules -/

/-- The loader leaves alone every property whose name is not in its list. -/
theorem assignModules_of_not_mem (n : String) :
    ∀ (names : List String) (mods : List ModuleObj) (w : Window),
      n ∉ names → assignModules w names mods n = w n := by
  intro names
  induction names with
  | nil => intro mods w _; rfl
  | cons a names ih =>
    intro mods w hn
    cases mods with
    | nil => rfl
    | cons m mods =>
      simp only [List.mem_cons, not_or] at hn
      rw [assignModules, ih mods _ hn.2]
      simp [Window.set, hn.1]

/-- The loader stores a module under the name at its position. -/
theorem assignModules_stores (n : String) (names : List String) (hnd : (n :: names).Nodup)
    (m : ModuleObj) (mods : List ModuleObj) (w : Window) :
    assignModules w (n :: names) (m :: mods) n = some m := by
  rw [assignModules, assignModules_of_not_mem n names mods _ (List.nodup_cons.mp hnd).1]
  simp [Window.set]

/-- Whatever the imports give, the assignments of lines 50-52 change none of
the properties that `initializeChameleon` reads. -/
theorem loader_leaves_pipeline_names (g : Window) (mods : List ModuleObj) (n : String)
    (hn : n ∈ pipelineNames) : assignModules g moduleNames mods n = g n :=
  assignModules_of_not_mem n moduleNames mods g (by
    revert n
    decide!)

/-- The array `interceptors` depends on `window` through the names of
`pipelineNames` only. -/
theorem interceptors_congr (w1 w2 : Window) (h : ∀ n ∈ pipelineNames, w1 n = w2 n) :
    interceptors w1 = interceptors w2 := by
  simp [interceptors, pipelineNames] at h ⊢
  simp [h]

/-- C11, evaluated: the loader stores the modules under `seedManager`,
`spoofingEngine`, `metaInterceptor`, ..., `webglInterceptor`, ..., and none of
the names under which `initializeChameleon` reads them is among these; on a page
where only the loader defines globals the boot stops at `SeedManager not
loaded`. -/
theorem stored_names_differ_from_read_names :
    moduleNames = ["seedManager", "spoofingEngine", "randomUtils", "jitterUtils",
        "metaInterceptor", "navigatorInterceptor", "screenInterceptor", "canvasInterceptor",
        "webglInterceptor", "audioInterceptor", "fontsInterceptor", "pluginsInterceptor",
        "timezoneInterceptor"]
      ∧ (∀ n ∈ pipelineNames, n ∉ moduleNames)
      ∧ (run loaderOnlyPage bootInputs).trace
        = [.console .initializing, .inject, .console .seedManagerNotLoaded]
      ∧ (run loaderOnlyPage bootInputs).initialized = none := by
  decide!

/-! ## The injection guard -/

theorem injections_append (a b : List Event) :
    injections (a ++ b) = injections a + injections b := by
  induction a with
  | nil => simp [injections]
  | cons e a ih =>
    cases e with
    | inject =>
      show injections (a ++ b) + 1 = injections a + 1 + injections b
      rw [ih]
      omega
    | _ => simp [injections, ih]

theorem injections_of_isPass {e : List Event} (h : ∀ x ∈ e, x.isPass = true) :
    injections e = 0 := by
  induction e with
  | nil => rfl
  | cons x e ih =>
    have hx := h x (List.mem_cons_self _ _)
    have he := ih (fun y hy => h y (List.mem_cons_of_mem _ hy))
    cases x <;> simp_all [injections, Event.isPass]

theorem SameInjection.rfl (s : State) : SameInjection s s :=
  ⟨Eq.refl _, Eq.refl _, Eq.refl _, Eq.refl _, Eq.refl _⟩

theorem SameInjection.trans {s1 s2 s3 : State} (h1 : SameInjection s1 s2)
    (h2 : SameInjection s2 s3) : SameInjection s1 s3 :=
  ⟨h2.1.trans h1.1, h2.2.1.trans h1.2.1, h2.2.2.1.trans h1.2.2.1,
    h2.2.2.2.1.trans h1.2.2.2.1, h2.2.2.2.2.trans h1.2.2.2.2⟩

theorem sameInjection_iterate (f : State → State) (hf : ∀ s, SameInjection s (f s)) :
    ∀ (n : Nat) (s : State), SameInjection s (f^[n] s) := by
  intro n
  induction n with
  | zero => intro s; exact SameInjection.rfl s
  | succ n ih => intro s; exact (hf s).trans (ih (f s))

theorem sameInjection_initializeChameleon (s : State) :
    SameInjection s (initializeChameleon s) := by
  unfold initializeChameleon afterMeta catchBlock
  repeat' split
  all_goals simp [SameInjection, injections_append, injections]

theorem sameInjection_resume (s : State) (c : Completion) : SameInjection s (resume s c) := by
  cases c with
  | throws => simp [resume, catchBlock, SameInjection, injections_append, injections]
  | nullish => simp [resume, catchBlock, SameInjection, injections_append, injections]
  | value p =>
    obtain ⟨e, he, hpass⟩ := initializeEach_isPass p (interceptors s.window)
      (s.trace ++ [.engineInit (.value p), .console (.profileGenerated p.archetype)])
    refine ⟨Eq.refl _, Eq.refl _, Eq.refl _, Eq.refl _, ?_⟩
    rw [resume_value_trace, he]
    simp [injections_append, injections, injections_of_isPass hpass]

theorem sameInjection_deliver (s : State) (type : String) (detail : Option Profile) :
    SameInjection s (deliver s type detail) := by
  unfold deliver
  by_cases h1 : type = "chameleon-regenerate"
  · simp only [h1, ↓reduceIte]
    obtain ⟨e, he, hpass⟩ := foldl_onRegenerate_isPass s.window s.regenerateListeners s.trace
    refine ⟨Eq.refl _, Eq.refl _, Eq.refl _, Eq.refl _, ?_⟩
    simp only
    rw [he, injections_append, injections_of_isPass hpass]
    rfl
  · simp only [h1, ↓reduceIte]
    by_cases h2 : type = "chameleon-profile-data"
    · simp only [h2, ↓reduceIte]
      refine ⟨Eq.refl _, Eq.refl _, Eq.refl _, Eq.refl _, ?_⟩
      have hmap : ∀ l : List Nat,
          injections (l.map (fun r => Event.respond r (.profile detail))) = 0 := by
        intro l
        induction l with
        | nil => rfl
        | cons a l ih => simpa [injections] using ih
      simp [injections_append, hmap]
    · simp only [h2, ↓reduceIte]
      exact SameInjection.rfl s

theorem sameInjection_onMessage (r : Nat) (action : String) (s : State) :
    SameInjection s (onMessage r action s) := by
  unfold onMessage
  by_cases h1 : action = "getProfile"
  · simp only [h1, ↓reduceIte]
    have h2 := sameInjection_deliver
      { s with trace := s.trace ++ [.dispatch "chameleon-get-profile" none] }
      "chameleon-get-profile" none
    obtain ⟨a1, a2, a3, a4, a5⟩ := h2
    exact ⟨a1, a2, a3, a4, by simp_all [injections_append, injections]⟩
  · simp only [h1, ↓reduceIte]
    by_cases h2 : action = "regenerateProfile"
    · simp only [h2, ↓reduceIte]
      have h3 := sameInjection_deliver
        { s with trace := s.trace ++ [.dispatch "chameleon-regenerate" none] }
        "chameleon-regenerate" none
      obtain ⟨a1, a2, a3, a4, a5⟩ := h3
      exact ⟨a1, a2, a3, a4, by simp_all [injections_append, injections]⟩
    · simp only [h2, ↓reduceIte]
      by_cases h3 : action = "getStatus"
      · simp [h3, SameInjection, injections_append, injections]
      · simp only [h3, ↓reduceIte]
        exact SameInjection.rfl s

theorem Once.of_same {s1 s2 : State} (h : Once s1) (hs : SameInjection s1 s2) : Once s2 := by
  obtain ⟨a1, a2, a3, a4, a5⟩ := hs
  exact
    { before := by rw [a1, a2, a4, a5]; exact h.before
      listener := by rw [a1, a4]; exact h.listener
      rooted := by rw [a1, a2, a3, a5]; exact h.rooted
      waiting := by rw [a1, a2, a3, a5]; exact h.waiting }

theorem once_initial (env : Env) : Once (State.initial env) where
  before := fun _ => ⟨rfl, rfl, rfl⟩
  listener := by intro h; simp [State.initial] at h
  rooted := by intro h; simp [State.initial] at h
  waiting := by intro h; simp [State.initial] at h

theorem once_contentScript {s : State} (h : Once s) : Once (contentScript s) := by
  unfold contentScript
  by_cases hf : s.injectedFlag = true
  · simpa [hf] using h
  · have hf0 : s.injectedFlag = false := by simpa using hf
    obtain ⟨b1, b2, b3⟩ := h.before hf0
    simp only [hf0, Bool.false_eq_true, ↓reduceIte, loadModules, injectScript]
    by_cases hr : s.hasRoot = true
    · simp only [hr, ↓reduceIte]
      exact
        { before := by intro hc; simp at hc
          listener := fun _ => by simp [b3]
          rooted := fun _ _ => by simp [injections_append, injections, b1, b2]
          waiting := by intro _ hc; simp [hr] at hc }
    · have hr0 : s.hasRoot = false := by simpa using hr
      simp only [hr0, Bool.false_eq_true, ↓reduceIte]
      exact
        { before := by intro hc; simp at hc
          listener := fun _ => by simp [b3]
          rooted := by intro _ hc; simp [hr0] at hc
          waiting := fun _ _ => by simp [injections_append, injections, b1, b2] }

theorem once_rootCreated {env : Env} {s : State} (h : Once s) :
    Once (step env s .rootCreated) := by
  unfold step
  by_cases hr : s.hasRoot = true
  · simpa [hr] using h
  · have hr0 : s.hasRoot = false := by simpa using hr
    simp only [hr0, Bool.false_eq_true, ↓reduceIte]
    by_cases hf : s.injectedFlag = true
    · obtain ⟨w1, w2⟩ := h.waiting hf hr0
      have hl := h.listener hf
      simp only [w2, Function.iterate_one, observerCallback, injectScript]
      exact
        { before := by intro hc; simp [hf] at hc
          listener := fun _ => hl
          rooted := fun _ _ => by simp [injections_append, injections, w1]
          waiting := by intro _ hc; simp at hc }
    · have hf0 : s.injectedFlag = false := by simpa using hf
      obtain ⟨b1, b2, b3⟩ := h.before hf0
      simp only [b2, Function.iterate_zero, id_eq]
      exact
        { before := fun _ => ⟨b1, by simp, b3⟩
          listener := by intro hc; simp [hf0] at hc
          rooted := by intro hc; simp [hf0] at hc
          waiting := by intro hc; simp [hf0] at hc }

theorem once_step {env : Env} {s : State} (h : Once s) (i : Input) :
    Once (step env s i) := by
  cases i with
  | contentScript => exact once_contentScript h
  | rootCreated => exact once_rootCreated h
  | importsSettle =>
    simp only [step]
    split
    · unfold importsSettle
      split
      · exact h.of_same (SameInjection.trans
          ⟨Eq.refl _, Eq.refl _, Eq.refl _, Eq.refl _, Eq.refl _⟩
          (sameInjection_initializeChameleon _))
      · exact h.of_same (by simp [SameInjection, injections_append, injections])
    · exact h
  | engineSettles =>
    simp only [step]
    split
    · exact h.of_same (sameInjection_resume s _)
    · exact h
  | message action =>
    simp only [step]
    exact h.of_same (SameInjection.trans
      ⟨Eq.refl _, Eq.refl _, Eq.refl _, Eq.refl _, Eq.refl _⟩
      (sameInjection_iterate _ (sameInjection_onMessage _ _) _ _))
  | windowEvent type detail => exact h.of_same (sameInjection_deliver s type detail)

theorem once_foldl {env : Env} (ins : List Input) :
    ∀ s : State, Once s → Once (ins.foldl (step env) s) := by
  induction ins with
  | nil => intro s h; exact h
  | cons i ins ih => intro s h; exact ih _ (once_step h i)

/-- The bookkeeping of the content script holds of every state of a run. -/
theorem once_run (env : Env) (ins : List Input) : Once (run env ins) :=
  once_foldl ins _ (once_initial env)

/-- C12, as the source has it: on a page whose document has no root element
yet, two runs of the content script have made no injection; the one injection
waits for the observer of line 183. -/
theorem no_injection_while_root_missing :
    (run pageWithoutRoot [.contentScript, .contentScript]).injectedFlag = true
      ∧ injections (run pageWithoutRoot [.contentScript, .contentScript]).trace = 0
      ∧ (run pageWithoutRoot [.contentScript, .contentScript]).observers = 1 := by
  decide!

/-- C12, amended: on a page where the content script has run (the flag
`__chameleon_injected` is set), running it again, any number of times, leaves
the state as it is: no injection, no message listener, no event.  So after any
inputs there is one message listener and at most one injection: exactly one
once the document has its root, none while it has not. -/
theorem repeated_run_changes_nothing (env : Env) (ins : List Input)
    (h : (run env ins).injectedFlag = true) :
    run env (ins ++ [.contentScript]) = run env ins
      ∧ (∀ n, (fun s => step env s .contentScript)^[n] (run env ins) = run env ins)
      ∧ (run env ins).messageListeners = 1
      ∧ injections (run env ins).trace ≤ 1
      ∧ ((run env ins).hasRoot = true → injections (run env ins).trace = 1)
      ∧ ((run env ins).hasRoot = false → injections (run env ins).trace = 0) := by
  have hfix : step env (run env ins) .contentScript = run env ins := by
    simp [step, contentScript, h]
  have ho := once_run env ins
  refine ⟨by simp [run, List.foldl_append] at hfix ⊢; exact hfix,
    fun n => Function.iterate_fixed hfix n, ho.listener h, ?_,
    fun hr => (ho.rooted h hr).1, fun hr => (ho.waiting h hr).1⟩
  cases hr : (run env ins).hasRoot
  · rw [(ho.waiting h hr).1]; omega
  · rw [(ho.rooted h hr).1]

theorem repeated_run_changes_nothing_witness :
    (run fullPage (bootInputs ++ [.contentScript])).injectedFlag = true
      ∧ run fullPage (bootInputs ++ [.contentScript] ++ [.contentScript])
        = run fullPage (bootInputs ++ [.contentScript])
      ∧ injections (run fullPage (bootInputs ++ [.contentScript])).trace ≤ 1 := by
  have h : (run fullPage (bootInputs ++ [.contentScript])).injectedFlag = true := by
    decide!
  have h2 := repeated_run_changes_nothing fullPage (bootInputs ++ [.contentScript]) h
  exact ⟨h, h2.1, h2.2.2.2.1⟩

end Chameleon
